import Mathlib

/-!
Verification of the micro-ai-ts conversation/tool-orchestration engine.

This file gives a shallow embedding, in Lean 4, of the core of the
`Micro` class and its helpers (`src/src/tools/mcp-client.ts`,
`src/src/http.ts`, `src/src/utils/utils.ts`): the streaming tool-call
loop, the SSE stream decoder with per-index tool-call delta merging,
reasoning-tag extraction, the tool executor, the conversation store,
the request builder, and the MCP JSON-RPC correlation layer.

Conventions of the embedding:
- JavaScript strings are Lean `String`s; absent (`undefined`/`null`)
  values are `Option`; JavaScript truthiness of a string value
  (`""` and `undefined` are falsy) is `jsTruthy`.
- Asynchronous generators become pure functions from the list of
  items the generator would consume (parsed frames, read results) to
  the list of items it yields plus its terminal outcome.
- Wall-clock time (the 30 s MCP deadline, HTTP timeouts) is modelled
  by explicit timeout events delivered to the state machine.
-/

/-- Truthiness of an optional JavaScript string: `undefined` and the
empty string are falsy. -/
def jsTruthy : Option String → Bool
  | none => false
  | some s => s ≠ ""

/-- The JavaScript expression `a || b` on optional strings: yields `a`
when `a` is truthy, otherwise `b`. -/
def jsOrStr (a b : Option String) : Option String :=
  if jsTruthy a then a else b

/-- The JavaScript coercion `x || ''` of an optional string. -/
def optStr (a : Option String) : String :=
  match a with
  | none => ""
  | some s => s

/-! ## Streaming invoker tool loop (Micro.streamWithToolHandling)

The loop in `streamWithToolHandling` (mcp-client.ts lines 1009-1058) is

    let iteration = 0
    while (iteration < this.maxToolInterations) {
      iteration++
      ... run one streamed round ...
      if (hasToolCalls) { ... execute tools ...; continue }
      break
    }
    if (iteration >= this.maxToolInterations) {
      throw new Error('Max tool call iterations reached')
    }

We embed it as a function of the per-round behaviour: `hasTC i` tells
whether the assistant message produced by round `i` (rounds are
numbered from 1, following the `iteration` counter) carries tool
calls.  Transport failures are absent here (they are claim C10).
The round itself yields its partial events directly to the caller in
either case; what the loop controls is whether the round's terminal
event is forwarded (`terminalsForwarded`) and whether the generator
ends by throwing `MaxToolIterationsExceeded` (`threw`). -/
structure StreamLoopResult where
  rounds : Nat
  terminalsForwarded : Nat
  threw : Bool
  deriving Repr, DecidableEq

/-- Core of the `while` loop: `fuel` is `maxToolInterations - iteration`
(the number of times the loop guard can still succeed) and `it` is the
current value of `iteration`.  Returns the final value of `iteration`
together with the number of terminal events forwarded to the caller. -/
def streamLoopGo (hasTC : Nat → Bool) : Nat → Nat → Nat × Nat
  | 0, it => (it, 0)
  | Nat.succ fuel, it =>
    let it' := it + 1
    if hasTC it' then streamLoopGo hasTC fuel it'
    else (it', 1)

/-- Embedding of `Micro.streamWithToolHandling` (without transport
failures): run the bounded loop from `iteration = 0`, then throw
`MaxToolIterationsExceeded` exactly when the final `iteration` value
reached the configured maximum. -/
def streamWithToolHandling (maxToolInterations : Nat) (hasTC : Nat → Bool) :
    StreamLoopResult :=
  let r := streamLoopGo hasTC maxToolInterations 0
  { rounds := r.1
    terminalsForwarded := r.2
    threw := decide (maxToolInterations ≤ r.1) }

/-! ## Case-insensitive tag scanning (utils.ts: hasTag / stripTag / extractInnerTag)

The source uses JavaScript regular expressions built from a tag name:
`hasTag` tests `/<tag>/i`, `stripTag` deletes `/<tag>/gi` and then
`/<\/tag>/gi`, and `extractInnerTag` matches `/<tag>(.*?)<\/tag>/is`
and trims the first capture.  We embed the three behaviours directly:
a case-insensitive substring search (`splitFirstCI`), a single-pass
case-insensitive delete-all (`removeAllCI`, fuelled by the input
length, which suffices because every step consumes at least one
character), and the first-open-then-first-close composition used by
the lazy capture group. -/

/-- Whitespace trim on both ends (the JavaScript `String.prototype.trim`),
implemented over the character list so that it evaluates by kernel
reduction. -/
def trimChars (cs : List Char) : List Char :=
  ((cs.dropWhile Char.isWhitespace).reverse.dropWhile Char.isWhitespace).reverse

/-- Trim of a string, via `trimChars`. -/
def jsTrim (s : String) : String :=
  String.mk (trimChars s.toList)

/-- Case-insensitive test that `pat` is a prefix of `cs`. -/
def startsWithCI : List Char → List Char → Bool
  | [], _ => true
  | _ :: _, [] => false
  | p :: ps, c :: cs => (p.toLower == c.toLower) && startsWithCI ps cs

/-- Find the first (leftmost) case-insensitive occurrence of `pat` in
`cs`: returns the part before the occurrence and the part after it. -/
def splitFirstCI : List Char → List Char → Option (List Char × List Char)
  | [], _ => none
  | c :: rest, pat =>
    if startsWithCI pat (c :: rest) then some ([], List.drop (pat.length - 1) rest)
    else
      match splitFirstCI rest pat with
      | some (pre, post) => some (c :: pre, post)
      | none => none

/-- Single left-to-right pass deleting every case-insensitive,
non-overlapping occurrence of `pat` (the semantics of
`String.prototype.replace` with a `gi` regex and empty replacement).
The fuel only needs to be at least the input length because each step
consumes at least one character of the input. -/
def removeAllCIGo (pat : List Char) : Nat → List Char → List Char
  | 0, cs => cs
  | Nat.succ _, [] => []
  | Nat.succ fuel, c :: rest =>
    if startsWithCI pat (c :: rest) then
      removeAllCIGo pat fuel (List.drop (pat.length - 1) rest)
    else c :: removeAllCIGo pat fuel rest

/-- Delete every case-insensitive occurrence of `pat` from `cs`. -/
def removeAllCI (pat cs : List Char) : List Char :=
  removeAllCIGo pat cs.length cs

/-- Case-sensitive prefix test (used for the exact substring searches
of the capability detector and the data-URL check). -/
def startsWithCS : List Char → List Char → Bool
  | [], _ => true
  | _ :: _, [] => false
  | p :: ps, c :: cs => (p == c) && startsWithCS ps cs

/-- Case-sensitive substring test over character lists (the semantics
of `String.prototype.includes`). -/
def containsSubstrL (pat : List Char) : List Char → Bool
  | [] => startsWithCS pat []
  | c :: rest => startsWithCS pat (c :: rest) || containsSubstrL pat rest

/-- Lowercasing of a string, character by character (the semantics of
`String.prototype.toLowerCase` on the ASCII model names involved),
implemented over the character list so that it evaluates by kernel
reduction. -/
def toLowerStr (s : String) : String :=
  String.mk (s.toList.map Char.toLower)

/-- Embedding of `hasTag(content, tag)`: the regex `/<tag>/i` tests
whether the opening tag occurs anywhere, case-insensitively; the
closing tag is not required. -/
def hasTag (content tag : String) : Bool :=
  (splitFirstCI content.toList ("<" ++ tag ++ ">").toList).isSome

/-- Embedding of `stripTag(content, tag)`: first delete every
case-insensitive occurrence of the opening tag, then every occurrence
of the closing tag.  The text between the tags is left in place. -/
def stripTag (content tag : String) : String :=
  String.mk (removeAllCI ("</" ++ tag ++ ">").toList
    (removeAllCI ("<" ++ tag ++ ">").toList content.toList))

/-- Embedding of `extractInnerTag(content, tag)`: the lazy regex
`/<tag>(.*?)<\/tag>/is` matches from the first opening tag to the
first closing tag after it; the capture is trimmed.  When either tag
is missing the result is the empty string. -/
def extractInnerTag (content tag : String) : String :=
  match splitFirstCI content.toList ("<" ++ tag ++ ">").toList with
  | none => ""
  | some (_, after) =>
    match splitFirstCI after ("</" ++ tag ++ ">").toList with
    | none => ""
    | some (inner, _) => String.mk (trimChars inner)

/-- No character of the string case-insensitively equals the opening
angle bracket (so no tag pattern can start inside it). -/
def noAngle (s : String) : Prop :=
  ∀ c ∈ s.toList, c.toLower ≠ '<'

instance (s : String) : Decidable (noAngle s) := by
  unfold noAngle
  infer_instance

/-! ## Raw assistant messages and reasoning extraction
(Micro.extractReasoning, mcp-client.ts lines 716-732) -/

/-- Raw assistant message as returned in `responseData.choices[0].message`:
every field may be absent. -/
structure RawAssistantMessage where
  role : Option String := none
  content : Option String := none
  reasoning : Option String := none
  reasoning_content : Option String := none
  deriving Repr, DecidableEq

/-- Embedding of `Micro.extractReasoning`: reasoning is initialised
from the explicit `reasoning` / `reasoning_content` field, but the
content is then scanned unconditionally: a `<thinking>` tag (or, if
absent, a `<thought>` tag) replaces the reasoning by the inner text of
the first well-formed region and deletes the tag markers from the
content.  Returns `(reasoning, content)`. -/
def extractReasoning (message : Option RawAssistantMessage) : String × String :=
  let reasoning := optStr (jsOrStr (message.bind (·.reasoning))
    (message.bind (·.reasoning_content)))
  let content := optStr (message.bind (·.content))
  if hasTag content "thinking" then
    (extractInnerTag content "thinking", stripTag content "thinking")
  else if hasTag content "thought" then
    (extractInnerTag content "thought", stripTag content "thought")
  else
    (reasoning, content)

/-! ## Data model: tool calls and conversation messages -/

/-- The `function` part of a reconstructed tool call. -/
structure ToolCallFunction where
  name : String
  arguments : String
  deriving Repr, DecidableEq

/-- A reconstructed tool call (`ToolCall` in types.ts): vendor-issued
id, the constant discriminator `"function"`, and the function data. -/
structure ToolCall where
  id : String
  type : String
  function : ToolCallFunction
  deriving Repr, DecidableEq

/-- Content of a conversation message: plain text, the
text-plus-image-part form produced by `setUserMessage` with a data
URL, or JavaScript `null`. -/
inductive MessageContent where
  | str (s : String)
  | textImage (text : String) (imageUrl : String)
  | nullContent
  deriving Repr, DecidableEq

/-- One turn of the conversation log.  The `tool_calls` list is the
possibly sparse array built by the stream decoder (a vendor that skips
an index leaves a hole), hence the inner `Option`. -/
structure Message where
  role : String
  content : MessageContent
  tool_call_id : Option String := none
  name : Option String := none
  tool_calls : Option (List (Option ToolCall)) := none
  deriving Repr, DecidableEq

/-! ## HTTP error classification (http.ts `request`,
Micro.buildErrorResponse lines 772-799) -/

/-- Error value thrown by the transport (`HttpError` in http.ts). -/
structure HttpFailure where
  message : String
  code : Option String := none
  status : Option Nat := none
  data : Option String := none
  deriving Repr, DecidableEq

/-- The classified error payload surfaced to callers
(`buildErrorResponse`): `timeout` when the transport aborted
(`ECONNABORTED`), otherwise `api_error`. -/
structure ClassifiedError where
  type : String
  message : String
  status : Option Nat
  code : Option String
  details : Option String
  deriving Repr, DecidableEq

/-- Embedding of the error construction in `Micro.buildErrorResponse`. -/
def classifyError (e : HttpFailure) : ClassifiedError :=
  { type := if e.code = some "ECONNABORTED" then "timeout" else "api_error"
    message := e.message
    status := e.status
    code := e.code
    details := e.data }

/-- Outcome of the `fetch` call inside http.ts `request`, before the
function's own error shaping: a 2xx body, a non-2xx status with the
parsed error body, an abort (the timeout fired), or another exception
which is rethrown as-is. -/
inductive FetchOutcome where
  | success (body : String)
  | httpFailure (status : Nat) (errMessage : Option String) (data : String)
  | abort
  | networkFailure (e : HttpFailure)
  deriving Repr, DecidableEq

/-- Embedding of http.ts `request` (lines 44-108): non-2xx statuses
become an `HTTP_ERROR` failure carrying the status and parsed body
(message falling back to the status line), an abort becomes the
`ECONNABORTED` timeout failure, other exceptions pass through. -/
def requestResult : FetchOutcome → Except HttpFailure String
  | .success body => .ok body
  | .httpFailure status errMessage data =>
    .error
      { message := optStr (jsOrStr errMessage
          (some ("HTTP error! status: " ++ toString status)))
        code := some "HTTP_ERROR"
        status := some status
        data := some data }
  | .abort =>
    .error { message := "Request timeout", code := some "ECONNABORTED" }
  | .networkFailure e => .error e

/-! ## Stream decoder (Micro.processStream, mcp-client.ts lines 870-999) -/

/-- One tool-call delta as found in `delta.tool_calls[]` of a parsed
frame: every field may be absent. -/
structure ToolCallFunctionDelta where
  name : Option String := none
  arguments : Option String := none
  deriving Repr, DecidableEq

/-- A tool-call delta addressed by positional index. -/
structure ToolCallDelta where
  index : Option Nat := none
  id : Option String := none
  function : Option ToolCallFunctionDelta := none
  deriving Repr, DecidableEq

/-- The `choices[0].delta` record of one parsed streaming frame. -/
structure StreamDelta where
  role : Option String := none
  content : Option String := none
  reasoning : Option String := none
  reasoning_content : Option String := none
  tool_calls : Option (List ToolCallDelta) := none
  deriving Repr, DecidableEq

/-- One parsed `data:` frame: the delta (absent when `choices` is
empty) and the optional top-level usage record (kept opaque). -/
structure StreamFrame where
  delta : Option StreamDelta := none
  usage : Option String := none
  deriving Repr, DecidableEq

/-- JavaScript array read `arr[i]` on a possibly sparse array: out of
range and holes both give `undefined`. -/
def jsGet (arr : List (Option α)) (i : Nat) : Option α :=
  (arr.get? i).join

/-- JavaScript array write `arr[i] = v`: writing past the end pads the
array with holes. -/
def jsSet : List (Option α) → Nat → α → List (Option α)
  | [], 0, v => [some v]
  | [], Nat.succ i, v => none :: jsSet [] i v
  | _ :: rest, 0, v => some v :: rest
  | a :: rest, Nat.succ i, v => a :: jsSet rest i v

/-- Embedding of the per-delta merge (mcp-client.ts lines 911-932):
the delta's index (defaulting to the current array length) selects a
slot; an empty slot is filled from whatever fragments are present
(missing ones become `""`), an occupied slot has id and name
overwritten only when the delta carries a non-empty value, and the
argument fragment is appended. -/
def mergeToolCallDelta (toolCalls : List (Option ToolCall))
    (d : ToolCallDelta) : List (Option ToolCall) :=
  let index := d.index.getD toolCalls.length
  match jsGet toolCalls index with
  | none =>
    jsSet toolCalls index
      { id := optStr d.id
        type := "function"
        function :=
          { name := optStr (d.function.bind (·.name))
            arguments := optStr (d.function.bind (·.arguments)) } }
  | some tc =>
    let tc := if jsTruthy d.id then { tc with id := optStr d.id } else tc
    let tc :=
      if jsTruthy (d.function.bind (·.name)) then
        { tc with function :=
            { tc.function with name := optStr (d.function.bind (·.name)) } }
      else tc
    let tc :=
      if jsTruthy (d.function.bind (·.arguments)) then
        { tc with function :=
            { tc.function with arguments :=
                tc.function.arguments ++ optStr (d.function.bind (·.arguments)) } }
      else tc
    jsSet toolCalls index tc

/-- The effective reasoning delta of a frame:
`delta?.reasoning || delta?.reasoning_content`. -/
def effReasoning (d : StreamDelta) : Option String :=
  jsOrStr d.reasoning d.reasoning_content

/-- Whether a frame's delta causes a partial event to be emitted:
`delta?.content || deltaReasoning` is truthy. -/
def emitsEvent (d : StreamDelta) : Bool :=
  jsTruthy d.content || jsTruthy (effReasoning d)

/-- A partial stream event as yielded to the caller (`done: false`). -/
structure PartialEvent where
  delta : Option String
  reasoning : Option String
  fullContent : String
  deriving Repr, DecidableEq

/-- The terminal stream event (`done: true`): trimmed accumulated
content and reasoning, the untrimmed original, and the usage record. -/
structure FinalEvent where
  fullContent : String
  reasoning : String
  original : String
  tokensUsed : Option String
  deriving Repr, DecidableEq

/-- Mutable accumulator of `processStream`. -/
structure DecoderState where
  fullContent : String
  reasoning : String
  role : String
  tokensUsed : Option String
  toolCalls : List (Option ToolCall)
  deriving Repr, DecidableEq

/-- Initial accumulator: empty content and reasoning, role
`assistant`, no usage, no tool calls. -/
def initDecoderState : DecoderState :=
  { fullContent := "", reasoning := "", role := "assistant"
    tokensUsed := none, toolCalls := [] }

/-- Processing of one parsed frame (the body of the `data:` branch,
lines 899-949): record the role if truthy, merge tool-call deltas,
append truthy content/reasoning deltas and emit a partial event if
either is non-empty, and capture a usage record if present. -/
def decodeFrame (st : DecoderState) (f : StreamFrame) :
    DecoderState × Option PartialEvent :=
  let (st, ev) :=
    match f.delta with
    | none => (st, none)
    | some d =>
      let st := if jsTruthy d.role then { st with role := optStr d.role } else st
      let st :=
        { st with toolCalls := (d.tool_calls.getD []).foldl mergeToolCallDelta st.toolCalls }
      if emitsEvent d then
        let st :=
          { st with fullContent := st.fullContent ++ optStr d.content
                    reasoning := st.reasoning ++ optStr (effReasoning d) }
        (st, some ({ delta := d.content, reasoning := effReasoning d
                     fullContent := st.fullContent } : PartialEvent))
      else (st, none)
  (if f.usage.isSome then { st with tokensUsed := f.usage } else st, ev)

/-- One unit of input consumed by the decoding loop, at frame
granularity: a parsed frame, a `data:` line whose JSON fails to parse
(silently skipped), a blank or `data: [DONE]` line (skipped), or a
failing `reader.read()` (which aborts the generator through its
`catch`). -/
inductive StreamItem where
  | frame (f : StreamFrame)
  | malformed
  | noise
  | readError (e : HttpFailure)

/-- The decoding loop: consume items in order, folding frames into the
accumulator and collecting emitted partial events; a read failure
aborts with the failure, anything else runs to completion. -/
def runDecoder (st : DecoderState) :
    List StreamItem → List PartialEvent × (DecoderState ⊕ HttpFailure)
  | [] => ([], Sum.inl st)
  | .frame f :: rest =>
    let (st', ev) := decodeFrame st f
    let (evs, out) := runDecoder st' rest
    (ev.toList ++ evs, out)
  | .malformed :: rest => runDecoder st rest
  | .noise :: rest => runDecoder st rest
  | .readError e :: _ => ([], Sum.inr e)

/-- The synthetic assistant message appended at end of stream (lines
957-963): accumulated role and content, tool calls attached only when
at least one was accumulated. -/
def mkStreamMessage (st : DecoderState) : Message :=
  { role := st.role
    content := .str st.fullContent
    tool_calls := if 0 < st.toolCalls.length then some st.toolCalls else none }

/-- The terminal event built at end of stream (lines 984-991) together
with the untrimmed original kept in `completion.original`. -/
def mkFinalEvent (st : DecoderState) : FinalEvent :=
  { fullContent := jsTrim st.fullContent
    reasoning := jsTrim st.reasoning
    original := st.fullContent
    tokensUsed := st.tokensUsed }

/-- Complete observable outcome of one `processStream` invocation. -/
structure StreamRoundOutcome where
  events : List PartialEvent
  final : Option FinalEvent
  thrown : Option ClassifiedError
  messages : List Message

/-- Embedding of `Micro.processStream`: on a clean end of stream the
synthetic assistant message is appended to the conversation and the
terminal event is yielded; when a read fails the classified error is
thrown and the conversation log is left untouched. -/
def processStream (msgs : List Message) (items : List StreamItem) :
    StreamRoundOutcome :=
  match runDecoder initDecoderState items with
  | (evs, Sum.inl st) =>
    { events := evs
      final := some (mkFinalEvent st)
      thrown := none
      messages := msgs ++ [mkStreamMessage st] }
  | (evs, Sum.inr e) =>
    { events := evs
      final := none
      thrown := some (classifyError e)
      messages := msgs }

/-! ## Tool executor (Micro.executeTool / Micro.handleToolCalls,
mcp-client.ts lines 661-714) -/

/-- A JavaScript value as far as the tool path observes it: either a
string, or any other value carried together with its
`JSON.stringify` image (which is all `handleToolCalls` extracts from
it). -/
inductive JsValue where
  | str (s : String)
  | other (serialized : String)
  deriving Repr, DecidableEq

/-- The `typeof result === 'string' ? result : JSON.stringify(result)`
conversion used for the tool message content. -/
def JsValue.toContentString : JsValue → String
  | .str s => s
  | .other serialized => serialized

/-- A registered tool: its schema name and its handler.  A handler
that throws is modelled by `Except.error` carrying the exception
message. -/
structure ToolDef where
  name : String
  execute : JsValue → Except String JsValue

/-- One `onToolCall` observer notification.  Failure notifications
carry the raw argument string; the success notification carries the
parsed arguments. -/
structure ObserverCall where
  toolName : String
  argumentsRaw : Option String
  argumentsParsed : Option JsValue
  result : Option JsValue
  error : Option String

/-- Embedding of `Micro.executeTool` (lines 661-693).  `parseJson` is
the `JSON.parse` oracle (`Except.error` = the SyntaxError message).
The function is total: an unknown tool name, a parse failure and a
throwing handler all return the human-readable error string as the
result value, and every path emits exactly one observer call. -/
def executeTool (tools : List ToolDef) (parseJson : String → Except String JsValue)
    (toolName : String) (toolArguments : String) : JsValue × List ObserverCall :=
  match tools.find? (fun t => t.name = toolName) with
  | none =>
    let errorMessage := "Tool \"" ++ toolName ++ "\" not found"
    (.str errorMessage,
     [{ toolName := toolName, argumentsRaw := some toolArguments
        argumentsParsed := none, result := none, error := some errorMessage }])
  | some tool =>
    match parseJson toolArguments with
    | .error e =>
      let errorMessage := "Error executing tool \"" ++ toolName ++ "\": " ++ e
      (.str errorMessage,
       [{ toolName := toolName, argumentsRaw := some toolArguments
          argumentsParsed := none, result := none, error := some errorMessage }])
    | .ok parsedArgs =>
      match tool.execute parsedArgs with
      | .error e =>
        let errorMessage := "Error executing tool \"" ++ toolName ++ "\": " ++ e
        (.str errorMessage,
         [{ toolName := toolName, argumentsRaw := some toolArguments
            argumentsParsed := none, result := none, error := some errorMessage }])
      | .ok result =>
        (result,
         [{ toolName := toolName, argumentsRaw := none
            argumentsParsed := some parsedArgs, result := some result, error := none }])

/-- The tool-role message built for one executed call (lines 702-707). -/
def mkToolMessage (tc : ToolCall) (result : JsValue) : Message :=
  { role := "tool"
    content := .str result.toContentString
    tool_call_id := some tc.id
    name := some tc.function.name }

/-- The result message of one entry of the `toolCalls.map (...)` array
of executions. -/
def toolExecution (tools : List ToolDef) (parseJson : String → Except String JsValue)
    (tc : ToolCall) : Message :=
  mkToolMessage tc (executeTool tools parseJson tc.function.name tc.function.arguments).1

/-- Model of `Promise.all` over the executions array: the executions
complete in the order given by `order` (a permutation of the indices),
and each completion writes its result into the slot of its own index;
the assembled array is then read out in index order. -/
def promiseAllOrdered (f : Nat → Message) (n : Nat) (order : List Nat) :
    List (Option Message) :=
  (List.range n).map fun i =>
    ((order.map fun j => (j, f j)).find? (fun p => p.1 = i)).map (·.2)

/-- Placeholder used only for out-of-range index reads in the
scheduling model. -/
def dummyMessage : Message :=
  { role := "", content := .nullContent }

/-- Embedding of `Micro.handleToolCalls` (lines 695-714) with an
explicit completion schedule: the executions are created in call
order, complete in `order`, are reassembled by `Promise.all` by index,
and are pushed onto the conversation as one block. -/
def handleToolCallsSched (tools : List ToolDef)
    (parseJson : String → Except String JsValue) (msgs : List Message)
    (toolCalls : List ToolCall) (order : List Nat) : List Message :=
  let results := toolCalls.map (toolExecution tools parseJson)
  msgs ++ (promiseAllOrdered (fun i => results.getD i dummyMessage)
    results.length order).reduceOption

/-- Sequential form of `handleToolCalls` (the completion schedule does
not matter; used by the non-streaming invoker embedding). -/
def handleToolCallsList (tools : List ToolDef)
    (parseJson : String → Except String JsValue) (msgs : List Message)
    (toolCalls : List ToolCall) : List Message :=
  msgs ++ toolCalls.map (toolExecution tools parseJson)

/-- Observer notifications emitted by one `handleToolCalls`, in
execution order. -/
def handleToolCallsObserved (tools : List ToolDef)
    (parseJson : String → Except String JsValue)
    (toolCalls : List ToolCall) : List ObserverCall :=
  toolCalls.flatMap fun tc =>
    (executeTool tools parseJson tc.function.name tc.function.arguments).2

/-! ## Conversation store (constructor, setSystemPrompt,
setUserMessage, setAssistantMessage, limitMessages, flushAllMessages,
and the appends performed by invoke / processStream) -/

/-- Embedding of utils.ts `takeRight`: non-positive counts give the
empty list, over-long counts give the whole list, otherwise the last
`n` entries. -/
def takeRight (arr : List α) (n : Int) : List α :=
  if n ≤ 0 then []
  else if (arr.length : Int) ≤ n then arr
  else arr.drop (arr.length - n.toNat)

/-- Embedding of utils.ts `isBufferString`: a data URL with a base64
marker (`startsWith('data:') && includes(';base64,')`). -/
def isBufferString (s : String) : Bool :=
  startsWithCS "data:".toList s.toList &&
    containsSubstrL ";base64,".toList s.toList

/-- One public operation on the conversation log.  `invokeAppendOp`
is the push of the vendor-returned message performed by `invoke` (line
809) and by the stream decoder (line 965); `toolResultsAppendOp` is
the block push of tool-result messages (line 712). -/
inductive ConvOp where
  | setSystemPromptOp (prompt : String)
  | setUserMessageOp (prompt : String) (bufferString : Option String)
  | setAssistantMessageOp (prompt : String)
  | limitMessagesOp (limit : Int)
  | flushAllMessagesOp
  | invokeAppendOp (m : Message)
  | toolResultsAppendOp (results : List (ToolCall × JsValue))
  deriving Repr, DecidableEq

/-- Effect of one conversation operation on the message log.  `pt` is
the `parseTemplate(_, this.context)` collaborator, kept abstract. -/
def applyConvOp (pt : String → String) (msgs : List Message) :
    ConvOp → List Message
  | .setSystemPromptOp prompt =>
    if prompt = "" then msgs
    else
      let parsed := pt prompt
      if parsed ≠ "" ∧ msgs.all (fun m => m.role ≠ "system") then
        { role := "system", content := .str parsed } :: msgs
      else msgs
  | .setUserMessageOp prompt bufferString =>
    let parsedPrompt := pt prompt
    let content :=
      match bufferString with
      | some b =>
        if isBufferString b then MessageContent.textImage parsedPrompt b
        else MessageContent.str parsedPrompt
      | none => MessageContent.str parsedPrompt
    msgs ++ [{ role := "user", content := content }]
  | .setAssistantMessageOp prompt =>
    msgs ++ [{ role := "assistant", content := .str (pt prompt) }]
  | .limitMessagesOp limit =>
    msgs.filter (fun m => m.role = "system")
      ++ takeRight (msgs.filter (fun m => m.role ≠ "system")) limit
  | .flushAllMessagesOp => []
  | .invokeAppendOp m => msgs ++ [m]
  | .toolResultsAppendOp results =>
    msgs ++ results.map fun p => mkToolMessage p.1 p.2

/-- Message log produced by the constructor: an empty log followed by
`setSystemPrompt(parsedSystemPrompt)` where `parsedSystemPrompt` is
the template-parsed system prompt (or `''` when none was given). -/
def constructMessages (pt : String → String) (systemPrompt : String) :
    List Message :=
  applyConvOp pt []
    (.setSystemPromptOp (if systemPrompt = "" then "" else pt systemPrompt))

/-- Run a sequence of public operations from a freshly constructed
conversation. -/
def runConv (pt : String → String) (systemPrompt : String)
    (ops : List ConvOp) : List Message :=
  ops.foldl (applyConvOp pt) (constructMessages pt systemPrompt)

/-- Number of system-role messages in a log. -/
def sysCount (msgs : List Message) : Nat :=
  (msgs.filter (fun m => m.role = "system")).length

/-- The system-message invariant: at most one system-role message, and
any system-role message is the first entry. -/
def sysInv (msgs : List Message) : Prop :=
  sysCount msgs ≤ 1 ∧ ∀ m ∈ msgs, m.role = "system" → msgs.head? = some m

instance (msgs : List Message) : Decidable (sysInv msgs) := by
  unfold sysInv
  infer_instance

/-! ## Capability detector and request builder
(Micro.detectModelCapabilities lines 449-484,
Micro.buildRequestBody lines 588-611,
Micro.applyReasoningConfig lines 613-639) -/

/-- Case-sensitive substring test (`String.prototype.includes`). -/
def containsSubstr (s sub : String) : Bool :=
  containsSubstrL sub.toList s.toList

/-- Requested reasoning effort level. -/
inductive ReasoningLevel where
  | minimal
  | low
  | medium
  | high
  deriving Repr, DecidableEq

/-- Capability record derived from the model identifier. -/
structure ModelCapabilities where
  isOpenAI5 : Bool
  isOpenAIReasoning : Bool
  isGemini25Reasoning : Bool
  isGLMReasoning : Bool
  isQWQ : Bool
  isDeepseekReasoning : Bool
  isQwen3 : Bool
  isMinimaxM2 : Bool
  isReasoningModel : Bool
  deriving Repr, DecidableEq

/-- Embedding of `Micro.detectModelCapabilities`: case-insensitive
substring matching of the lowercased model name against the fixed
vendor markers. -/
def detectModelCapabilities (model : String) : ModelCapabilities :=
  let modelLower := toLowerStr model
  let isOpenAI5 := containsSubstr modelLower "gpt-5"
  let isOpenAIReasoning :=
    (containsSubstr modelLower "o1" || containsSubstr modelLower "o3"
      || containsSubstr modelLower "o4") || isOpenAI5
  let isGemini25Reasoning := containsSubstr modelLower "gemini-2.5"
  let isGLMReasoning := containsSubstr modelLower "glm-4."
  let isQWQ := containsSubstr modelLower "qwq"
  let isDeepseekReasoning :=
    containsSubstr modelLower "deepseek-reasoner"
      || containsSubstr modelLower "deepseek-r1"
  let isQwen3 := containsSubstr modelLower "qwen3"
  let isMinimaxM2 := containsSubstr modelLower "-m2"
  { isOpenAI5 := isOpenAI5
    isOpenAIReasoning := isOpenAIReasoning
    isGemini25Reasoning := isGemini25Reasoning
    isGLMReasoning := isGLMReasoning
    isQWQ := isQWQ
    isDeepseekReasoning := isDeepseekReasoning
    isQwen3 := isQwen3
    isMinimaxM2 := isMinimaxM2
    isReasoningModel :=
      isGemini25Reasoning || isOpenAIReasoning || isGLMReasoning || isQWQ
        || isDeepseekReasoning || isQwen3 || isMinimaxM2 }

/-- The effort-to-budget map of the thinking-budget dialect. -/
def thinkingBudgetMap : ReasoningLevel → Nat
  | .minimal => 2048
  | .low => 4096
  | .medium => 8192
  | .high => 16384

/-- The nested `extra_body.google.thinking_config` block. -/
structure ThinkingConfig where
  thinking_budget : Nat
  include_thoughts : Bool
  deriving Repr, DecidableEq

/-- The `extra_body.google` wrapper. -/
structure GoogleExtraBody where
  thinking_config : ThinkingConfig
  deriving Repr, DecidableEq

/-- The enabled-flag dialect block `thinking = { type: 'enabled' }`. -/
structure ThinkingFlag where
  type : String
  deriving Repr, DecidableEq

/-- The request payload assembled by `buildRequestBody`; absent keys
are `none`. -/
structure RequestBody where
  model : String
  messages : List Message
  stream : Bool
  temperature : Option Int := none
  max_tokens : Option Nat := none
  max_completion_tokens : Option Nat := none
  tools : Option (List String) := none
  tool_choice : Option String := none
  reasoning_effort : Option ReasoningLevel := none
  extra_body : Option GoogleExtraBody := none
  thinking : Option ThinkingFlag := none
  deriving Repr, DecidableEq

/-- JavaScript truthiness of an optional number (`undefined` and `0`
are falsy). -/
def jsTruthyNat : Option Nat → Bool
  | none => false
  | some n => n ≠ 0

/-- Embedding of `Micro.applyReasoningConfig`: exactly one dialect
block is written, selected by the capability flags in source order;
the openai-style branch also moves a requested token limit from
`max_tokens` to `max_completion_tokens`. -/
def applyReasoningConfig (caps : ModelCapabilities)
    (reasoningEffort : Option ReasoningLevel) (maxTokens : Option Nat)
    (body : RequestBody) : RequestBody :=
  if caps.isOpenAIReasoning then
    let body := { body with reasoning_effort := reasoningEffort }
    if jsTruthyNat maxTokens then
      { body with max_completion_tokens := maxTokens, max_tokens := none }
    else body
  else if caps.isGemini25Reasoning then
    let cfg : GoogleExtraBody :=
      { thinking_config :=
          { thinking_budget := thinkingBudgetMap (reasoningEffort.getD .medium)
            include_thoughts := true } }
    { body with extra_body := some cfg }
  else if caps.isGLMReasoning then
    { body with thinking := some { type := "enabled" } }
  else body

/-- The per-session fields consulted by `buildRequestBody`.  The
`override` map is modelled as an arbitrary final transformation of the
payload (`{ ...body, ...override }`). -/
structure MicroConfig where
  model : String
  messages : List Message
  streamEnabled : Bool
  temperature : Option Int := none
  maxTokens : Option Nat := none
  tools : Option (List String) := none
  tool_choice : Option String := none
  reasoning : Bool := false
  capabilities : ModelCapabilities
  reasoning_effort : Option ReasoningLevel := none
  override : Option (RequestBody → RequestBody) := none

/-- Embedding of `Micro.buildRequestBody` (lines 588-611). -/
def buildRequestBody (c : MicroConfig) (enableStream : Bool) : RequestBody :=
  let body : RequestBody :=
    { model := c.model, messages := c.messages
      stream := enableStream || c.streamEnabled }
  let body :=
    if c.temperature.isSome then { body with temperature := c.temperature }
    else body
  let body :=
    if jsTruthyNat c.maxTokens then { body with max_tokens := c.maxTokens }
    else body
  let body :=
    if jsTruthyNat (c.tools.map List.length) then
      let b := { body with tools := c.tools }
      if jsTruthy c.tool_choice then { b with tool_choice := c.tool_choice }
      else b
    else body
  let body :=
    if c.reasoning && c.capabilities.isReasoningModel then
      applyReasoningConfig c.capabilities c.reasoning_effort c.maxTokens body
    else body
  match c.override with
  | some f => f body
  | none => body

/-- A concrete session configuration against a thinking-budget model,
used to instantiate the budget-map claims. -/
def geminiDemoConfig (effort : ReasoningLevel) : MicroConfig :=
  { model := "gemini-2.5-flash"
    messages := []
    streamEnabled := false
    reasoning := true
    capabilities := detectModelCapabilities "gemini-2.5-flash"
    reasoning_effort := some effort }

/-! ## MCP protocol client (MCPClient, mcp-client.ts lines 26-219) -/

/-- The fixed per-request deadline (mcp-client.ts line 20). -/
def MCP_REQUEST_TIMEOUT_MS : Nat := 30000

/-- One entry of the pending-request map. -/
structure PendingEntry where
  id : Nat
  method : String
  deriving Repr, DecidableEq

/-- Client state: the id counter and the pending-request map (a list
with unique ids). -/
structure MCPState where
  messageId : Nat
  pending : List PendingEntry
  deriving Repr, DecidableEq

/-- How a pending request completes. -/
inductive RpcOutcome where
  | resolved (result : String)
  | rejectedError (message : String)
  | rejectedTimeout (method : String)
  | rejectedWrite (method : String)
  deriving Repr, DecidableEq

/-- Events driving the MCP client between suspension points: a
`sendRequest` (with the success of the stdin write), a complete parsed
inbound line handed to `handleMessage`, the firing of one request's
timeout, and the `cleanup` run on disconnect or process exit. -/
inductive MCPEvent where
  | send (method : String) (writeOk : Bool)
  | recv (id : Option Nat) (isError : Bool) (errMessage : Option String) (result : String)
  | timeoutFire (id : Nat)
  | cleanup

/-- One step of the MCP client.  Returns the new state and the
completions (id, outcome) performed by the step.
`send`: allocate `++messageId`, register the pending entry, then on a
write failure delete it again and reject (lines 140-155).
`recv`: embedding of `handleMessage` (lines 116-128) — a message with
an id matching a pending request deletes it and resolves or rejects it
with the carried payload; anything else is ignored.
`timeoutFire`: the `setTimeout` callback (lines 158-163) — if the id
is still pending, delete it and reject with the timeout error.
`cleanup`: clears the pending map but not the id counter (lines
214-219). -/
def mcpStep (st : MCPState) : MCPEvent → MCPState × List (Nat × RpcOutcome)
  | .send method writeOk =>
    let id := st.messageId + 1
    let st' := { messageId := id, pending := st.pending ++ [{ id := id, method := method }] }
    if writeOk then (st', [])
    else ({ st' with pending := st'.pending.filter (fun p => p.id ≠ id) },
      [(id, .rejectedWrite method)])
  | .recv none _ _ _ => (st, [])
  | .recv (some mid) isError errMessage result =>
    match st.pending.find? (fun p => p.id = mid) with
    | none => (st, [])
    | some _ =>
      ({ st with pending := st.pending.filter (fun p => p.id ≠ mid) },
       [(mid, if isError then
           .rejectedError (optStr (jsOrStr errMessage (some "MCP Error")))
         else .resolved result)])
  | .timeoutFire tid =>
    match st.pending.find? (fun p => p.id = tid) with
    | none => (st, [])
    | some entry =>
      ({ st with pending := st.pending.filter (fun p => p.id ≠ tid) },
       [(tid, .rejectedTimeout entry.method)])
  | .cleanup => ({ st with pending := [] }, [])

/-- Initial client state (`messageId = 0`, no pending requests). -/
def mcpInit : MCPState := { messageId := 0, pending := [] }

/-- Run a trace of events, collecting all completions in order. -/
def mcpRun (st : MCPState) : List MCPEvent → MCPState × List (Nat × RpcOutcome)
  | [] => (st, [])
  | e :: rest =>
    let (st', outs) := mcpStep st e
    let (st'', outs') := mcpRun st' rest
    (st'', outs ++ outs')

/-- The ids allocated by the sends of a trace, in order. -/
def mcpAllocs (st : MCPState) : List MCPEvent → List Nat
  | [] => []
  | e :: rest =>
    match e with
    | .send _ _ => (st.messageId + 1) :: mcpAllocs (mcpStep st e).1 rest
    | _ => mcpAllocs (mcpStep st e).1 rest

/-- Number of send events in a trace. -/
def sendCount : List MCPEvent → Nat
  | [] => 0
  | .send _ _ :: rest => sendCount rest + 1
  | _ :: rest => sendCount rest

/-! ## Non-streaming invoke round (Micro.invoke, lines 801-837) -/

/-- The parsed JSON payload of one non-streaming response, as far as
`invoke` consumes it: `choices[0].message` together with its tool
calls, and the usage record. -/
structure ResponseData where
  message : Option RawAssistantMessage := none
  message_tool_calls : Option (List ToolCall) := none
  usage : Option String := none

/-- Conversion of the raw vendor message pushed by `invoke` (line 809)
into the log's message shape. -/
def rawToMessage (m : RawAssistantMessage) (toolCalls : Option (List ToolCall)) :
    Message :=
  { role := optStr m.role
    content := match m.content with
      | some s => .str s
      | none => .nullContent
    tool_calls := toolCalls.map (List.map some) }

/-- Observable outcome of one round of `invoke`: a rejection with the
classified error, a recursion into the next round after tool handling,
or the final response data. -/
inductive InvokeRoundOutcome where
  | failedRound (err : ClassifiedError)
  | continueRound
  | doneRound (content : String) (reasoning : String) (role : String)
  deriving Repr, DecidableEq

/-- Embedding of one round of `Micro.invoke`: a transport failure is
classified and rejected with the conversation log untouched; a
successful response has its message appended, then either tools are
handled (and the loop recurses) or the final response is built from
the extracted, trimmed reasoning and content. -/
def invokeRound (tools : List ToolDef)
    (parseJson : String → Except String JsValue) (msgs : List Message)
    (resp : Except HttpFailure ResponseData) :
    InvokeRoundOutcome × List Message :=
  match resp with
  | .error e => (.failedRound (classifyError e), msgs)
  | .ok rd =>
    match rd.message with
    | none =>
      let rc := extractReasoning none
      (.doneRound (jsTrim rc.2) (jsTrim rc.1) "assistant", msgs)
    | some m =>
      let msgs := msgs ++ [rawToMessage m rd.message_tool_calls]
      if jsTruthyNat ((rd.message_tool_calls).map List.length) then
        (.continueRound,
         handleToolCallsList tools parseJson msgs (rd.message_tool_calls.getD []))
      else
        let rc := extractReasoning (some m)
        (.doneRound (jsTrim rc.2) (jsTrim rc.1) (optStr (jsOrStr m.role (some "assistant"))), msgs)

/-! ## Auxiliary projections used by the stream-decoder statements -/

/-- Whether an input item is a failing read. -/
def isReadError : StreamItem → Bool
  | .readError _ => true
  | _ => false

/-- The delta of an item, when it is a parsed frame that carries one. -/
def itemDelta : StreamItem → Option StreamDelta
  | .frame f => f.delta
  | _ => none

/-- Concatenation of a list of strings (right fold, so that
`concatAll (a :: l) = a ++ concatAll l` holds definitionally). -/
def concatAll (l : List String) : String :=
  l.foldr (· ++ ·) ""

/-- A small concrete stream used to instantiate the decoder claims: a
content delta, skipped noise, a reasoning delta, a frame with neither,
and a second content delta. -/
def demoStreamItems : List StreamItem :=
  [ .frame { delta := some { content := some "Hel" } }
  , .noise
  , .frame { delta := some { reasoning := some "Th" } }
  , .frame { delta := some { role := some "assistant" } }
  , .frame { delta := some { content := some "lo " } } ]

theorem streamLoopGo_allTC (hasTC : Nat → Bool)
    (h : ∀ i, hasTC i = true) :
    ∀ fuel it, streamLoopGo hasTC fuel it = (it + fuel, 0) := by
  intro fuel
  induction fuel with
  | zero => intro it; simp [streamLoopGo]
  | succ f ih =>
    intro it
    simp only [streamLoopGo, h (it + 1), if_true]
    rw [ih (it + 1)]
    have : it + 1 + f = it + (f + 1) := by omega
    rw [this]

theorem streamLoopGo_firstClean (hasTC : Nat → Bool) :
    ∀ fuel it i, it < i → i ≤ it + fuel →
    (∀ j, it < j → j < i → hasTC j = true) → hasTC i = false →
    streamLoopGo hasTC fuel it = (i, 1) := by
  intro fuel
  induction fuel with
  | zero => intro it i h1 h2; omega
  | succ f ih =>
    intro it i h1 h2 hall hi
    by_cases hcase : it + 1 = i
    · subst hcase
      simp [streamLoopGo, hi]
    · have htc : hasTC (it + 1) = true := hall (it + 1) (by omega) (by omega)
      simp only [streamLoopGo, htc, if_true]
      exact ih (it + 1) i (by omega) (by omega)
        (fun j hj1 hj2 => hall j (by omega) hj2) hi

/-- Claim C1, counterexample.  With `maxToolInterations = 1` and a
first round whose assistant message carries no tool calls (so `i = 1`
satisfies `1 ≤ i ≤ maxToolInterations`), the caller does receive the
clean terminal event, but the generator nevertheless ends by throwing
`MaxToolIterationsExceeded` (`iteration >= this.maxToolInterations`
also holds after a clean `break` in the last permitted round), so "no
exception is raised" is false. -/
theorem claim_C1_counterexample :
    (fun _ => false : Nat → Bool) 1 = false ∧
    (streamWithToolHandling 1 (fun _ => false)).terminalsForwarded = 1 ∧
    (streamWithToolHandling 1 (fun _ => false)).threw = true := by
  decide

/-- Claim C1, amended.  (1) If every round's assistant message carries
tool calls, the stream runs exactly `maxToolInterations` rounds,
forwards no terminal event, and raises `MaxToolIterationsExceeded` —
it never loops beyond the cap.  (2) If the first round without tool
calls is round `i` with `1 ≤ i < maxToolInterations`, the caller
receives exactly one clean terminal event and no exception.  (3) If
that first clean round is round `maxToolInterations` itself, the
terminal event is still forwarded but `MaxToolIterationsExceeded` is
raised afterwards anyway. -/
theorem claim_C1_stream_loop (maxToolInterations : Nat) (hasTC : Nat → Bool) :
    ((∀ i, hasTC i = true) →
      streamWithToolHandling maxToolInterations hasTC =
        { rounds := maxToolInterations, terminalsForwarded := 0, threw := true })
    ∧ (∀ i, 1 ≤ i → i < maxToolInterations →
        (∀ j, 1 ≤ j → j < i → hasTC j = true) → hasTC i = false →
        streamWithToolHandling maxToolInterations hasTC =
          { rounds := i, terminalsForwarded := 1, threw := false })
    ∧ (1 ≤ maxToolInterations →
        (∀ j, 1 ≤ j → j < maxToolInterations → hasTC j = true) →
        hasTC maxToolInterations = false →
        streamWithToolHandling maxToolInterations hasTC =
          { rounds := maxToolInterations, terminalsForwarded := 1, threw := true }) := by
  refine ⟨?_, ?_, ?_⟩
  · intro h
    unfold streamWithToolHandling
    rw [streamLoopGo_allTC hasTC h maxToolInterations 0]
    simp
  · intro i h1 h2 hall hi
    unfold streamWithToolHandling
    rw [streamLoopGo_firstClean hasTC maxToolInterations 0 i (by omega) (by omega)
      (fun j hj1 hj2 => hall j (by omega) hj2) hi]
    simp
    omega
  · intro h1 hall hi
    unfold streamWithToolHandling
    rw [streamLoopGo_firstClean hasTC maxToolInterations 0 maxToolInterations
      (by omega) (by omega) (fun j hj1 hj2 => hall j (by omega) hj2) hi]
    simp

/-- Claim C1, witness: a run where every round calls tools throws at
the cap with no terminal event, and a run whose third round is clean
(cap 5) delivers exactly one terminal event and no exception. -/
theorem claim_C1_witness :
    streamWithToolHandling 2 (fun _ => true) =
      { rounds := 2, terminalsForwarded := 0, threw := true } ∧
    streamWithToolHandling 5 (fun n => decide (n < 3)) =
      { rounds := 3, terminalsForwarded := 1, threw := false } :=
  ⟨(claim_C1_stream_loop 2 (fun _ => true)).1 (fun _ => rfl),
   (claim_C1_stream_loop 5 (fun n => decide (n < 3))).2.1 3 (by decide) (by decide)
     (fun j _ hj2 => by simp only [decide_eq_true_eq]; omega) (by decide)⟩

theorem decodeFrame_none (st : DecoderState) (f : StreamFrame)
    (hd : f.delta = none) :
    decodeFrame st f =
      (if f.usage.isSome then { st with tokensUsed := f.usage } else st, none) := by
  simp [decodeFrame, hd]

theorem decodeFrame_emit (st : DecoderState) (f : StreamFrame) (d : StreamDelta)
    (hd : f.delta = some d) (he : emitsEvent d = true) :
    ∃ st', decodeFrame st f =
        (st', some { delta := d.content, reasoning := effReasoning d
                     fullContent := st.fullContent ++ optStr d.content }) ∧
      st'.fullContent = st.fullContent ++ optStr d.content ∧
      st'.reasoning = st.reasoning ++ optStr (effReasoning d) := by
  simp only [decodeFrame, hd, he, if_true]
  by_cases hr : jsTruthy d.role <;> by_cases hu : f.usage.isSome <;>
    simp [hr, hu]

theorem decodeFrame_noemit (st : DecoderState) (f : StreamFrame) (d : StreamDelta)
    (hd : f.delta = some d) (he : emitsEvent d = false) :
    ∃ st', decodeFrame st f = (st', none) ∧
      st'.fullContent = st.fullContent ∧
      st'.reasoning = st.reasoning := by
  simp only [decodeFrame, hd, he, if_false]
  by_cases hr : jsTruthy d.role <;> by_cases hu : f.usage.isSome <;>
    simp [hr, hu]

theorem runDecoder_pure :
    ∀ (items : List StreamItem), (∀ it ∈ items, isReadError it = false) →
    ∀ st : DecoderState, ∃ evs st',
      runDecoder st items = (evs, Sum.inl st') ∧
      st'.fullContent = st.fullContent ++ concatAll (evs.map fun e => optStr e.delta) ∧
      st'.reasoning = st.reasoning ++ concatAll (evs.map fun e => optStr e.reasoning) ∧
      evs.map (fun e => (e.delta, e.reasoning)) =
        ((items.filterMap itemDelta).filter emitsEvent).map
          (fun d => (d.content, effReasoning d)) := by
  intro items
  induction items with
  | nil =>
    intro _ st
    exact ⟨[], st, rfl, by simp [concatAll], by simp [concatAll], by simp⟩
  | cons it rest ih =>
    intro hpure st
    have hrest : ∀ x ∈ rest, isReadError x = false :=
      fun x hx => hpure x (List.mem_cons_of_mem _ hx)
    cases it with
    | malformed =>
      obtain ⟨evs, st', heq, hfc, hrs, hmap⟩ := ih hrest st
      exact ⟨evs, st', by simpa [runDecoder] using heq, hfc, hrs,
        by simpa [itemDelta] using hmap⟩
    | noise =>
      obtain ⟨evs, st', heq, hfc, hrs, hmap⟩ := ih hrest st
      exact ⟨evs, st', by simpa [runDecoder] using heq, hfc, hrs,
        by simpa [itemDelta] using hmap⟩
    | readError e =>
      have := hpure _ (List.mem_cons_self _ _)
      simp [isReadError] at this
    | frame f =>
      cases hd : f.delta with
      | none =>
        obtain ⟨evs, st', heq, hfc, hrs, hmap⟩ :=
          ih hrest (if f.usage.isSome then { st with tokensUsed := f.usage } else st)
        have hfc0 : (if f.usage.isSome then { st with tokensUsed := f.usage } else st).fullContent
            = st.fullContent := by split <;> rfl
        have hrs0 : (if f.usage.isSome then { st with tokensUsed := f.usage } else st).reasoning
            = st.reasoning := by split <;> rfl
        refine ⟨evs, st', ?_, by rw [hfc, hfc0], by rw [hrs, hrs0], ?_⟩
        · simp [runDecoder, decodeFrame_none st f hd, heq]
        · simpa [itemDelta, hd] using hmap
      | some d =>
        by_cases he : emitsEvent d
        · obtain ⟨st1, heq1, hfc1, hrs1⟩ := decodeFrame_emit st f d hd he
          obtain ⟨evs, st', heq, hfc, hrs, hmap⟩ := ih hrest st1
          refine ⟨{ delta := d.content, reasoning := effReasoning d
                    fullContent := st.fullContent ++ optStr d.content } :: evs, st',
            ?_, ?_, ?_, ?_⟩
          · simp [runDecoder, heq1, heq]
          · rw [hfc, hfc1]
            simp [concatAll, String.append_assoc]
          · rw [hrs, hrs1]
            simp [concatAll, String.append_assoc]
          · simpa [itemDelta, hd, he] using hmap
        · have he' : emitsEvent d = false := by simpa using he
          obtain ⟨st1, heq1, hfc1, hrs1⟩ := decodeFrame_noemit st f d hd he'
          obtain ⟨evs, st', heq, hfc, hrs, hmap⟩ := ih hrest st1
          refine ⟨evs, st', ?_, by rw [hfc, hfc1], by rw [hrs, hrs1], ?_⟩
          · simp [runDecoder, heq1, heq]
          · simpa [itemDelta, hd, he'] using hmap

/-- Claim C2: for every decoded stream without read failures, the
decoder terminates cleanly (one appended message, no exception); the
concatenation of the emitted partial content deltas equals the
terminal event's untrimmed content, whose trim is the terminal
content; likewise for reasoning deltas; and the partial events
correspond one-to-one, in source order, to exactly the frames whose
delta carries non-empty content or reasoning. -/
theorem claim_C2_decoder_invariant (msgs : List Message) (items : List StreamItem)
    (hpure : ∀ it ∈ items, isReadError it = false) :
    ∃ fin : FinalEvent, ∃ m : Message,
      (processStream msgs items).final = some fin ∧
      (processStream msgs items).thrown = none ∧
      (processStream msgs items).messages = msgs ++ [m] ∧
      fin.original =
        concatAll ((processStream msgs items).events.map fun e => optStr e.delta) ∧
      fin.fullContent = jsTrim fin.original ∧
      fin.reasoning = jsTrim
        (concatAll ((processStream msgs items).events.map fun e => optStr e.reasoning)) ∧
      (processStream msgs items).events.map (fun e => (e.delta, e.reasoning)) =
        ((items.filterMap itemDelta).filter emitsEvent).map
          (fun d => (d.content, effReasoning d)) := by
  obtain ⟨evs, st', heq, hfc, hrs, hmap⟩ := runDecoder_pure items hpure initDecoderState
  have hfc' : st'.fullContent = concatAll (evs.map fun e => optStr e.delta) := by
    simpa [initDecoderState] using hfc
  have hrs' : st'.reasoning = concatAll (evs.map fun e => optStr e.reasoning) := by
    simpa [initDecoderState] using hrs
  refine ⟨mkFinalEvent st', mkStreamMessage st', ?_, ?_, ?_, ?_, ?_, ?_, ?_⟩
  · simp [processStream, heq]
  · simp [processStream, heq]
  · simp [processStream, heq]
  · simpa [processStream, heq, mkFinalEvent] using hfc'
  · simp [processStream, heq, mkFinalEvent]
  · simp only [processStream, heq, mkFinalEvent]
    rw [hrs']
  · simpa [processStream, heq] using hmap

/-- Claim C2, witness: the decoder invariant instantiated on the
concrete five-item stream. -/
theorem claim_C2_witness :
    ∃ fin : FinalEvent, ∃ m : Message,
      (processStream [] demoStreamItems).final = some fin ∧
      (processStream [] demoStreamItems).thrown = none ∧
      (processStream [] demoStreamItems).messages = [] ++ [m] ∧
      fin.original =
        concatAll ((processStream [] demoStreamItems).events.map fun e => optStr e.delta) ∧
      fin.fullContent = jsTrim fin.original ∧
      fin.reasoning = jsTrim
        (concatAll ((processStream [] demoStreamItems).events.map fun e => optStr e.reasoning)) ∧
      (processStream [] demoStreamItems).events.map (fun e => (e.delta, e.reasoning)) =
        ((demoStreamItems.filterMap itemDelta).filter emitsEvent).map
          (fun d => (d.content, effReasoning d)) :=
  claim_C2_decoder_invariant [] demoStreamItems (by decide)

theorem jsGet_jsSet_self (arr : List (Option α)) :
    ∀ (i : Nat) (v : α), jsGet (jsSet arr i v) i = some v := by
  induction arr with
  | nil =>
    intro i
    induction i with
    | zero => intro v; rfl
    | succ j ihj =>
      intro v
      simpa [jsSet, jsGet, List.get?] using ihj v
  | cons a rest ih =>
    intro i
    cases i with
    | zero => intro v; rfl
    | succ j =>
      intro v
      simpa [jsSet, jsGet, List.get?] using ih j v

theorem jsTruthy_some (o : Option String) (h : jsTruthy o = true) :
    o = some (optStr o) := by
  cases o <;> simp_all [jsTruthy, optStr]

theorem optStr_not_truthy (o : Option String) (h : jsTruthy o = false) :
    optStr o = "" := by
  cases o <;> simp_all [jsTruthy, optStr]

theorem mergeUpdate_eq (toolCalls : List (Option ToolCall)) (d : ToolCallDelta)
    (tc : ToolCall)
    (h : jsGet toolCalls (d.index.getD toolCalls.length) = some tc) :
    mergeToolCallDelta toolCalls d =
      jsSet toolCalls (d.index.getD toolCalls.length)
        { id := if jsTruthy d.id then optStr d.id else tc.id
          type := tc.type
          function :=
            { name :=
                if jsTruthy (d.function.bind (·.name)) then
                  optStr (d.function.bind (·.name))
                else tc.function.name
              arguments :=
                tc.function.arguments ++
                  (if jsTruthy (d.function.bind (·.arguments)) then
                    optStr (d.function.bind (·.arguments))
                  else "") } } := by
  simp only [mergeToolCallDelta, h]
  by_cases hid : jsTruthy d.id <;>
    by_cases hnm : jsTruthy (d.function.bind (·.name)) <;>
    by_cases har : jsTruthy (d.function.bind (·.arguments)) <;>
    simp [hid, hnm, har]

/-- Claim C3, counterexample.  The claim's concrete fragments, read as
the JSON string literals they are written as, are `{"a"` and `":1}`;
the code concatenates them to `{"a"":1}` (with a doubled quote), not
to the claimed `{"a":1}`. -/
theorem claim_C3_counterexample :
    ([ { index := some 0, function := some { name := some "foo" } }
     , { index := some 0, function := some { arguments := some "\x7b\"a\"" } }
     , { index := some 0, function := some { arguments := some "\":1\x7d" } }
     ] : List ToolCallDelta).foldl mergeToolCallDelta [] =
      [some { id := "", type := "function"
              function := { name := "foo", arguments := "\x7b\"a\"\":1\x7d" } }] ∧
    "\x7b\"a\"\":1\x7d" ≠ "\x7b\"a\":1\x7d" := by
  decide

/-- Claim C3, amended.  (1) The first delta seen at an index creates a
new entry from whatever id/name/argument fragments it carries, missing
fields becoming empty strings.  (2) A later delta at an occupied index
always appends (never replaces) its argument fragment; its id and name
overwrite the stored values only when the delta carries them (any
change comes from the delta; a carried non-empty value does overwrite;
an absent one leaves the stored value unchanged).  (3) The fragments
`{index:0,name:"foo"}`, `{index:0,args:"{\"a"}`, `{index:0,args:"\":1}"}`
reconstruct the call `{name:"foo", arguments:"{\"a\":1}"}` (the
claim's second fragment carried one quote too many for the stated
reconstruction). -/
theorem claim_C3_delta_merge :
    (∀ (toolCalls : List (Option ToolCall)) (d : ToolCallDelta),
      jsGet toolCalls (d.index.getD toolCalls.length) = none →
      jsGet (mergeToolCallDelta toolCalls d) (d.index.getD toolCalls.length) =
        some { id := optStr d.id, type := "function"
               function := { name := optStr (d.function.bind (·.name))
                             arguments := optStr (d.function.bind (·.arguments)) } })
    ∧ (∀ (toolCalls : List (Option ToolCall)) (d : ToolCallDelta) (tc : ToolCall),
        jsGet toolCalls (d.index.getD toolCalls.length) = some tc →
        ∃ tc', jsGet (mergeToolCallDelta toolCalls d) (d.index.getD toolCalls.length) =
            some tc' ∧
          tc'.function.arguments =
            tc.function.arguments ++ optStr (d.function.bind (·.arguments)) ∧
          (tc'.id ≠ tc.id → d.id = some tc'.id) ∧
          (∀ s, d.id = some s → s ≠ "" → tc'.id = s) ∧
          (d.id = none → tc'.id = tc.id) ∧
          (tc'.function.name ≠ tc.function.name →
            d.function.bind (·.name) = some tc'.function.name) ∧
          (∀ s, d.function.bind (·.name) = some s → s ≠ "" → tc'.function.name = s) ∧
          (d.function.bind (·.name) = none → tc'.function.name = tc.function.name) ∧
          tc'.type = tc.type)
    ∧ ([ { index := some 0, function := some { name := some "foo" } }
       , { index := some 0, function := some { arguments := some "\x7b\"a" } }
       , { index := some 0, function := some { arguments := some "\":1\x7d" } }
       ] : List ToolCallDelta).foldl mergeToolCallDelta [] =
        [some { id := "", type := "function"
                function := { name := "foo", arguments := "\x7b\"a\":1\x7d" } }] := by
  refine ⟨?_, ?_, by decide⟩
  · intro toolCalls d h
    simp only [mergeToolCallDelta, h]
    exact jsGet_jsSet_self toolCalls _ _
  · intro toolCalls d tc h
    rw [mergeUpdate_eq toolCalls d tc h]
    refine ⟨_, jsGet_jsSet_self toolCalls _ _, ?_, ?_, ?_, ?_, ?_, ?_, ?_, rfl⟩
    · by_cases har : jsTruthy (d.function.bind (·.arguments))
      · simp [har]
      · simp [har, optStr_not_truthy _ (by simpa using har)]
    · intro hne
      by_cases hid : jsTruthy d.id
      · simpa [hid] using jsTruthy_some d.id hid
      · simp [hid] at hne
    · intro s hs hne
      rw [hs]
      simp [jsTruthy, optStr, hne]
    · intro hnone
      simp [jsTruthy, hnone]
    · intro hne
      by_cases hnm : jsTruthy (d.function.bind (·.name))
      · simpa [hnm] using jsTruthy_some _ hnm
      · simp [hnm] at hne
    · intro s hs hne
      rw [hs]
      simp [jsTruthy, optStr, hne]
    · intro hnone
      simp [jsTruthy, hnone]

/-- Claim C3, witness: the creation and update characterisations
applied at concrete inputs — a fresh index-0 delta creates the entry,
and a later argument fragment is appended to it. -/
theorem claim_C3_witness :
    jsGet (mergeToolCallDelta []
      { index := some 0, function := some { name := some "foo" } }) 0 =
      some { id := "", type := "function"
             function := { name := "foo", arguments := "" } } ∧
    ∃ tc', jsGet (mergeToolCallDelta
        [some { id := "x", type := "function"
                function := { name := "foo", arguments := "ab" } }]
        { index := some 0, function := some { arguments := some "cd" } }) 0 =
        some tc' ∧
      tc'.function.arguments = "ab" ++ "cd" := by
  constructor
  · exact claim_C3_delta_merge.1 []
      { index := some 0, function := some { name := some "foo" } } (by decide)
  · obtain ⟨tc', heq, hargs, -⟩ := claim_C3_delta_merge.2.1
      [some { id := "x", type := "function"
              function := { name := "foo", arguments := "ab" } }]
      { index := some 0, function := some { arguments := some "cd" } }
      { id := "x", type := "function"
        function := { name := "foo", arguments := "ab" } } (by decide)
    exact ⟨tc', heq, hargs⟩

theorem startsWithCI_self_append (p r : List Char) :
    startsWithCI p (p ++ r) = true := by
  induction p with
  | nil => rfl
  | cons c cs ih => simp [startsWithCI, ih]

theorem startsWithCI_angle_false (pt : List Char) (c : Char) (cs : List Char)
    (h : c.toLower ≠ '<') : startsWithCI ('<' :: pt) (c :: cs) = false := by
  have h0 : '<'.toLower = '<' := by decide
  have h1 : ('<'.toLower == c.toLower) = false := by
    rw [h0]
    exact beq_eq_false_iff_ne.mpr (fun hc => h hc.symm)
  show (('<'.toLower == c.toLower) && startsWithCI pt cs) = false
  rw [h1]
  simp

theorem startsWithCI_append_false (p : List Char) :
    ∀ (cs r : List Char), p.length ≤ cs.length → startsWithCI p cs = false →
    startsWithCI p (cs ++ r) = false := by
  induction p with
  | nil => intro cs r _ h; simp [startsWithCI] at h
  | cons pc ps ih =>
    intro cs r hlen h
    cases cs with
    | nil => simp at hlen
    | cons cc cs' =>
      have h' : ((pc.toLower == cc.toLower) && startsWithCI ps cs') = false := h
      rw [Bool.and_eq_false_iff] at h'
      show ((pc.toLower == cc.toLower) && startsWithCI ps (cs' ++ r)) = false
      rcases h' with h' | h'
      · rw [h']
        simp
      · rw [ih cs' r (by simpa using hlen) h']
        simp

theorem splitFirstCI_exact (q : Char) (p r : List Char) :
    splitFirstCI ((q :: p) ++ r) (q :: p) = some ([], r) := by
  have h1 := startsWithCI_self_append (q :: p) r
  rw [List.cons_append] at h1 ⊢
  rw [splitFirstCI, h1]
  simp [List.drop_left]

theorem splitFirstCI_skip (pt : List Char) :
    ∀ (a r : List Char), (∀ c ∈ a, c.toLower ≠ '<') →
    splitFirstCI (a ++ r) ('<' :: pt) =
      (splitFirstCI r ('<' :: pt)).map (fun pr => (a ++ pr.1, pr.2)) := by
  intro a
  induction a with
  | nil =>
    intro r _
    cases hres : splitFirstCI r ('<' :: pt) <;> simp [hres]
  | cons c a' ih =>
    intro r h
    have hc := h c (List.mem_cons_self _ _)
    rw [List.cons_append, splitFirstCI, startsWithCI_angle_false pt c _ hc]
    simp only [Bool.false_eq_true, if_false]
    rw [ih r (fun x hx => h x (List.mem_cons_of_mem _ hx))]
    cases hres : splitFirstCI r ('<' :: pt) <;> simp [hres]

theorem splitFirstCI_noAngle (pt : List Char) :
    ∀ (cs : List Char), (∀ c ∈ cs, c.toLower ≠ '<') →
    splitFirstCI cs ('<' :: pt) = none := by
  intro cs
  induction cs with
  | nil => intro _; rfl
  | cons c cs' ih =>
    intro h
    have hc := h c (List.mem_cons_self _ _)
    rw [splitFirstCI, startsWithCI_angle_false pt c _ hc]
    simp only [Bool.false_eq_true, if_false]
    rw [ih (fun x hx => h x (List.mem_cons_of_mem _ hx))]

theorem removeAllCIGo_noAngle_id (pt : List Char) :
    ∀ (cs : List Char), (∀ c ∈ cs, c.toLower ≠ '<') → ∀ fuel,
    removeAllCIGo ('<' :: pt) fuel cs = cs := by
  intro cs
  induction cs with
  | nil => intro _ fuel; cases fuel <;> rfl
  | cons c cs' ih =>
    intro h fuel
    cases fuel with
    | zero => rfl
    | succ f =>
      have hc := h c (List.mem_cons_self _ _)
      rw [removeAllCIGo, startsWithCI_angle_false pt c _ hc]
      simp only [Bool.false_eq_true, if_false]
      rw [ih (fun x hx => h x (List.mem_cons_of_mem _ hx)) f]

theorem removeAllCIGo_skip (pt : List Char) :
    ∀ (a : List Char) (f : Nat) (r : List Char), (∀ c ∈ a, c.toLower ≠ '<') →
    removeAllCIGo ('<' :: pt) (a.length + f) (a ++ r) =
      a ++ removeAllCIGo ('<' :: pt) f r := by
  intro a
  induction a with
  | nil =>
    intro f r _
    simp
  | cons c a' ih =>
    intro f r h
    have hc := h c (List.mem_cons_self _ _)
    have hlen : (c :: a').length + f = Nat.succ (a'.length + f) := by
      simp [List.length_cons]
      omega
    rw [hlen, List.cons_append, removeAllCIGo,
      startsWithCI_angle_false pt c _ hc]
    simp only [Bool.false_eq_true, if_false]
    rw [ih f r (fun x hx => h x (List.mem_cons_of_mem _ hx)), List.cons_append]

theorem removeAllCIGo_consume (q : Char) (p : List Char) (f : Nat) (r : List Char) :
    removeAllCIGo (q :: p) (Nat.succ f) ((q :: p) ++ r) =
      removeAllCIGo (q :: p) f r := by
  have h1 := startsWithCI_self_append (q :: p) r
  rw [List.cons_append] at h1
  rw [List.cons_append, removeAllCIGo, h1]
  simp [List.drop_left]

theorem splitFirstCI_wf (pt A R : List Char) (hA : ∀ c ∈ A, c.toLower ≠ '<') :
    splitFirstCI (A ++ (('<' :: pt) ++ R)) ('<' :: pt) = some (A, R) := by
  rw [splitFirstCI_skip pt A _ hA, splitFirstCI_exact '<' pt R]
  simp

theorem removeAll_open_pass (tagd A I B : List Char)
    (hA : ∀ c ∈ A, c.toLower ≠ '<') (hI : ∀ c ∈ I, c.toLower ≠ '<')
    (hB : ∀ c ∈ B, c.toLower ≠ '<') (htagd : ∀ c ∈ tagd, c.toLower ≠ '<')
    (hcross : startsWithCI ('<' :: (tagd ++ ['>']))
      ('<' :: ('/' :: (tagd ++ ['>']))) = false) :
    removeAllCI ('<' :: (tagd ++ ['>']))
        (A ++ (('<' :: (tagd ++ ['>'])) ++
          (I ++ (('<' :: ('/' :: (tagd ++ ['>']))) ++ B)))) =
      A ++ (I ++ (('<' :: ('/' :: (tagd ++ ['>']))) ++ B)) := by
  set pt := tagd ++ ['>'] with hpt
  set O : List Char := '<' :: pt with hO
  set C : List Char := '<' :: ('/' :: pt) with hC
  have hslashRegion : ∀ c ∈ ('/' :: pt) ++ B, c.toLower ≠ '<' := by
    intro c hcmem
    rcases List.mem_append.mp hcmem with hcm | hcm
    · rcases List.mem_cons.mp hcm with rfl | hcm2
      · decide
      · rw [hpt] at hcm2
        rcases List.mem_append.mp hcm2 with hcm3 | hcm3
        · exact htagd c hcm3
        · rcases List.mem_singleton.mp hcm3 with rfl
          decide
    · exact hB c hcm
  rw [removeAllCI]
  have h1 : (A ++ (O ++ (I ++ (C ++ B)))).length =
      A.length + (O ++ (I ++ (C ++ B))).length := by simp
  rw [h1, removeAllCIGo_skip pt A _ _ hA]
  have h2 : (O ++ (I ++ (C ++ B))).length =
      Nat.succ (I.length + (pt.length + (C ++ B).length)) := by
    simp [hO]
    omega
  rw [h2, removeAllCIGo_consume '<' pt _ (I ++ (C ++ B)),
    removeAllCIGo_skip pt I _ _ hI]
  have h3 : C ++ B = '<' :: (('/' :: pt) ++ B) := by simp [hC]
  have h4 : pt.length + (C ++ B).length =
      Nat.succ (pt.length + (('/' :: pt) ++ B).length) := by
    simp [hC]
    omega
  rw [h4, h3, removeAllCIGo]
  have hfalse : startsWithCI O ('<' :: (('/' :: pt) ++ B)) = false := by
    rw [← h3]
    exact startsWithCI_append_false O C B (by simp [hO, hC]) hcross
  rw [hfalse]
  simp only [Bool.false_eq_true, if_false]
  rw [removeAllCIGo_noAngle_id pt _ hslashRegion, ← h3]

theorem removeAll_close_pass (tagd A I B : List Char)
    (hA : ∀ c ∈ A, c.toLower ≠ '<') (hI : ∀ c ∈ I, c.toLower ≠ '<')
    (hB : ∀ c ∈ B, c.toLower ≠ '<') :
    removeAllCI ('<' :: ('/' :: (tagd ++ ['>'])))
        (A ++ (I ++ (('<' :: ('/' :: (tagd ++ ['>']))) ++ B))) =
      A ++ (I ++ B) := by
  set pt := tagd ++ ['>'] with hpt
  set C : List Char := '<' :: ('/' :: pt) with hC
  have hAI : ∀ c ∈ A ++ I, c.toLower ≠ '<' := by
    intro c hcmem
    rcases List.mem_append.mp hcmem with hcm | hcm
    · exact hA c hcm
    · exact hI c hcm
  have hgroup : A ++ (I ++ (C ++ B)) = (A ++ I) ++ (C ++ B) := by
    simp
  rw [removeAllCI, hgroup]
  have h1 : ((A ++ I) ++ (C ++ B)).length =
      (A ++ I).length + (C ++ B).length := by
    simp
    omega
  rw [h1, removeAllCIGo_skip ('/' :: pt) (A ++ I) _ _ hAI]
  have h2 : (C ++ B).length = Nat.succ (('/' :: pt).length + B.length) := by
    simp [hC]
    omega
  rw [h2]
  have h3 : C ++ B = ('<' :: ('/' :: pt)) ++ B := by rw [hC]
  rw [h3, removeAllCIGo_consume '<' ('/' :: pt) _ B,
    removeAllCIGo_noAngle_id ('/' :: pt) B hB]
  simp

theorem hasTag_wellFormed (tag a inner b : String) (hA : noAngle a) :
    hasTag (a ++ ("<" ++ tag ++ ">") ++ inner ++ ("</" ++ tag ++ ">") ++ b)
      tag = true := by
  have hcontent :
      (a ++ ("<" ++ tag ++ ">") ++ inner ++ ("</" ++ tag ++ ">") ++ b).toList =
        a.data ++ (('<' :: (tag.data ++ ['>'])) ++
          (inner.data ++ (('<' :: ('/' :: (tag.data ++ ['>']))) ++ b.data))) := by
    show (a ++ ("<" ++ tag ++ ">") ++ inner ++ ("</" ++ tag ++ ">") ++ b).data = _
    simp [String.data_append]
  have hopen : ("<" ++ tag ++ ">").toList = '<' :: (tag.data ++ ['>']) := by
    show ("<" ++ tag ++ ">").data = _
    simp [String.data_append]
  have hA' : ∀ c ∈ a.data, c.toLower ≠ '<' := hA
  rw [hasTag, hcontent, hopen, splitFirstCI_wf _ _ _ hA']
  rfl

theorem extractInner_wellFormed (tag a inner b : String)
    (hA : noAngle a) (hI : noAngle inner) :
    extractInnerTag (a ++ ("<" ++ tag ++ ">") ++ inner ++ ("</" ++ tag ++ ">") ++ b)
      tag = jsTrim inner := by
  have hcontent :
      (a ++ ("<" ++ tag ++ ">") ++ inner ++ ("</" ++ tag ++ ">") ++ b).toList =
        a.data ++ (('<' :: (tag.data ++ ['>'])) ++
          (inner.data ++ (('<' :: ('/' :: (tag.data ++ ['>']))) ++ b.data))) := by
    show (a ++ ("<" ++ tag ++ ">") ++ inner ++ ("</" ++ tag ++ ">") ++ b).data = _
    simp [String.data_append]
  have hopen : ("<" ++ tag ++ ">").toList = '<' :: (tag.data ++ ['>']) := by
    show ("<" ++ tag ++ ">").data = _
    simp [String.data_append]
  have hclose : ("</" ++ tag ++ ">").toList = '<' :: ('/' :: (tag.data ++ ['>'])) := by
    show ("</" ++ tag ++ ">").data = _
    simp [String.data_append]
  have hA' : ∀ c ∈ a.data, c.toLower ≠ '<' := hA
  have hI' : ∀ c ∈ inner.data, c.toLower ≠ '<' := hI
  rw [extractInnerTag, hcontent, hopen, hclose, splitFirstCI_wf _ _ _ hA']
  simp only []
  rw [splitFirstCI_wf _ _ _ hI']
  rfl

theorem stripTag_wellFormed (tag a inner b : String)
    (hT : noAngle tag) (hA : noAngle a) (hI : noAngle inner) (hB : noAngle b)
    (hcross : startsWithCI (("<" ++ tag ++ ">").toList)
      (("</" ++ tag ++ ">").toList) = false) :
    stripTag (a ++ ("<" ++ tag ++ ">") ++ inner ++ ("</" ++ tag ++ ">") ++ b)
      tag = a ++ inner ++ b := by
  have hcontent :
      (a ++ ("<" ++ tag ++ ">") ++ inner ++ ("</" ++ tag ++ ">") ++ b).toList =
        a.data ++ (('<' :: (tag.data ++ ['>'])) ++
          (inner.data ++ (('<' :: ('/' :: (tag.data ++ ['>']))) ++ b.data))) := by
    show (a ++ ("<" ++ tag ++ ">") ++ inner ++ ("</" ++ tag ++ ">") ++ b).data = _
    simp [String.data_append]
  have hopen : ("<" ++ tag ++ ">").toList = '<' :: (tag.data ++ ['>']) := by
    show ("<" ++ tag ++ ">").data = _
    simp [String.data_append]
  have hclose : ("</" ++ tag ++ ">").toList = '<' :: ('/' :: (tag.data ++ ['>'])) := by
    show ("</" ++ tag ++ ">").data = _
    simp [String.data_append]
  have hA' : ∀ c ∈ a.data, c.toLower ≠ '<' := hA
  have hI' : ∀ c ∈ inner.data, c.toLower ≠ '<' := hI
  have hB' : ∀ c ∈ b.data, c.toLower ≠ '<' := hB
  have hT' : ∀ c ∈ tag.data, c.toLower ≠ '<' := hT
  have hcross' : startsWithCI ('<' :: (tag.data ++ ['>']))
      ('<' :: ('/' :: (tag.data ++ ['>']))) = false := by
    rw [← hopen, ← hclose]
    exact hcross
  rw [stripTag, hcontent, hopen, hclose,
    removeAll_open_pass tag.data _ _ _ hA' hI' hB' hT' hcross',
    removeAll_close_pass tag.data _ _ _ hA' hI' hB']
  have hfin : (a ++ inner ++ b).data = a.data ++ (inner.data ++ b.data) := by
    simp [String.data_append]
  rw [← hfin]

theorem hasTag_unterminated (tag a c : String) (hA : noAngle a) :
    hasTag (a ++ ("<" ++ tag ++ ">") ++ c) tag = true := by
  have hcontent : (a ++ ("<" ++ tag ++ ">") ++ c).toList =
      a.data ++ (('<' :: (tag.data ++ ['>'])) ++ c.data) := by
    show (a ++ ("<" ++ tag ++ ">") ++ c).data = _
    simp [String.data_append]
  have hopen : ("<" ++ tag ++ ">").toList = '<' :: (tag.data ++ ['>']) := by
    show ("<" ++ tag ++ ">").data = _
    simp [String.data_append]
  have hA' : ∀ ch ∈ a.data, ch.toLower ≠ '<' := hA
  rw [hasTag, hcontent, hopen, splitFirstCI_wf _ _ _ hA']
  rfl

theorem extractInner_unterminated (tag a c : String)
    (hA : noAngle a) (hC : noAngle c) :
    extractInnerTag (a ++ ("<" ++ tag ++ ">") ++ c) tag = "" := by
  have hcontent : (a ++ ("<" ++ tag ++ ">") ++ c).toList =
      a.data ++ (('<' :: (tag.data ++ ['>'])) ++ c.data) := by
    show (a ++ ("<" ++ tag ++ ">") ++ c).data = _
    simp [String.data_append]
  have hopen : ("<" ++ tag ++ ">").toList = '<' :: (tag.data ++ ['>']) := by
    show ("<" ++ tag ++ ">").data = _
    simp [String.data_append]
  have hclose : ("</" ++ tag ++ ">").toList = '<' :: ('/' :: (tag.data ++ ['>'])) := by
    show ("</" ++ tag ++ ">").data = _
    simp [String.data_append]
  have hA' : ∀ ch ∈ a.data, ch.toLower ≠ '<' := hA
  have hC' : ∀ ch ∈ c.data, ch.toLower ≠ '<' := hC
  rw [extractInnerTag, hcontent, hopen, hclose, splitFirstCI_wf _ _ _ hA']
  simp only []
  rw [splitFirstCI_noAngle _ _ hC']

theorem stripTag_unterminated (tag a c : String)
    (hA : noAngle a) (hC : noAngle c) :
    stripTag (a ++ ("<" ++ tag ++ ">") ++ c) tag = a ++ c := by
  have hcontent : (a ++ ("<" ++ tag ++ ">") ++ c).toList =
      a.data ++ (('<' :: (tag.data ++ ['>'])) ++ c.data) := by
    show (a ++ ("<" ++ tag ++ ">") ++ c).data = _
    simp [String.data_append]
  have hopen : ("<" ++ tag ++ ">").toList = '<' :: (tag.data ++ ['>']) := by
    show ("<" ++ tag ++ ">").data = _
    simp [String.data_append]
  have hclose : ("</" ++ tag ++ ">").toList = '<' :: ('/' :: (tag.data ++ ['>'])) := by
    show ("</" ++ tag ++ ">").data = _
    simp [String.data_append]
  have hA' : ∀ ch ∈ a.data, ch.toLower ≠ '<' := hA
  have hC' : ∀ ch ∈ c.data, ch.toLower ≠ '<' := hC
  have hAC : ∀ ch ∈ a.data ++ c.data, ch.toLower ≠ '<' := by
    intro ch hm
    rcases List.mem_append.mp hm with hm | hm
    · exact hA' ch hm
    · exact hC' ch hm
  have hpass1 : removeAllCI ('<' :: (tag.data ++ ['>']))
      (a.data ++ (('<' :: (tag.data ++ ['>'])) ++ c.data)) = a.data ++ c.data := by
    rw [removeAllCI]
    have h1 : (a.data ++ (('<' :: (tag.data ++ ['>'])) ++ c.data)).length =
        a.data.length + (('<' :: (tag.data ++ ['>'])) ++ c.data).length := by simp
    rw [h1, removeAllCIGo_skip _ _ _ _ hA']
    have h2 : (('<' :: (tag.data ++ ['>'])) ++ c.data).length =
        Nat.succ ((tag.data ++ ['>']).length + c.data.length) := by
      simp
      omega
    rw [h2, removeAllCIGo_consume '<' (tag.data ++ ['>']) _ c.data,
      removeAllCIGo_noAngle_id _ _ hC']
  rw [stripTag, hcontent, hopen, hclose, hpass1, removeAllCI,
    removeAllCIGo_noAngle_id _ _ hAC]
  rfl

/-- Claim C4, counterexample.  (1) A vendor-supplied explicit
reasoning field does not stop the content scan: the tag region
overrides it.  (2) The tags are stripped but their inner text stays in
the visible content, so `"<thinking>step1</thinking>answer"` yields
content `"step1answer"`, not `"answer"`.  (3) An unterminated open tag
is not left untouched: the tag marker is removed from the content and
the extracted reasoning becomes empty (discarding the explicit
field). -/
theorem claim_C4_counterexample :
    extractReasoning (some { reasoning := some "R", content := some "<thinking>T</thinking>x" }) = ("T", "Tx") ∧
    ("T", "Tx") ≠ ("R", "<thinking>T</thinking>x") ∧
    extractReasoning (some { content := some "<thinking>step1</thinking>answer" }) =
      ("step1", "step1answer") ∧
    "step1answer" ≠ "answer" ∧
    extractReasoning (some { reasoning := some "R", content := some "<thinking>unterminated" }) = ("", "unterminated") ∧
    ("" : String) ≠ "R" ∧ "unterminated" ≠ "<thinking>unterminated" := by
  decide

/-- Claim C4, amended.  Reasoning is initialised from the explicit
`reasoning` / `reasoning_content` field, but the content is scanned
unconditionally: when the content contains an open `<thinking>` tag
(case-insensitively; otherwise an open `<thought>` tag), the extracted
reasoning is replaced by the trimmed inner text of the first
well-formed region — the empty string when the tag is unterminated —
and the tag markers (but not the inner text) are removed from the
content; only when neither tag occurs are the vendor reasoning and the
content returned unchanged.  Concretely, for tag-free `a`, `inner`,
`b`: a well-formed region yields reasoning `trim inner` and content
`a ++ inner ++ b`; an unterminated open tag yields reasoning `""` and
content with the tag marker deleted. -/
theorem claim_C4_reasoning_extraction :
    (∀ msg : RawAssistantMessage,
      (hasTag (optStr msg.content) "thinking" = true →
        extractReasoning (some msg) =
          (extractInnerTag (optStr msg.content) "thinking",
           stripTag (optStr msg.content) "thinking")) ∧
      (hasTag (optStr msg.content) "thinking" = false →
        hasTag (optStr msg.content) "thought" = true →
        extractReasoning (some msg) =
          (extractInnerTag (optStr msg.content) "thought",
           stripTag (optStr msg.content) "thought")) ∧
      (hasTag (optStr msg.content) "thinking" = false →
        hasTag (optStr msg.content) "thought" = false →
        extractReasoning (some msg) =
          (optStr (jsOrStr msg.reasoning msg.reasoning_content),
           optStr msg.content)))
    ∧ (∀ tag a inner b : String, noAngle tag → noAngle a → noAngle inner →
        noAngle b →
        startsWithCI (("<" ++ tag ++ ">").toList)
          (("</" ++ tag ++ ">").toList) = false →
        hasTag (a ++ ("<" ++ tag ++ ">") ++ inner ++ ("</" ++ tag ++ ">") ++ b)
          tag = true ∧
        extractInnerTag
          (a ++ ("<" ++ tag ++ ">") ++ inner ++ ("</" ++ tag ++ ">") ++ b) tag =
          jsTrim inner ∧
        stripTag
          (a ++ ("<" ++ tag ++ ">") ++ inner ++ ("</" ++ tag ++ ">") ++ b) tag =
          a ++ inner ++ b)
    ∧ (∀ tag a c : String, noAngle a → noAngle c →
        hasTag (a ++ ("<" ++ tag ++ ">") ++ c) tag = true ∧
        extractInnerTag (a ++ ("<" ++ tag ++ ">") ++ c) tag = "" ∧
        stripTag (a ++ ("<" ++ tag ++ ">") ++ c) tag = a ++ c) := by
  refine ⟨?_, ?_, ?_⟩
  · intro msg
    refine ⟨?_, ?_, ?_⟩
    · intro h1
      simp [extractReasoning, h1]
    · intro h1 h2
      simp [extractReasoning, h1, h2]
    · intro h1 h2
      simp [extractReasoning, h1, h2]
  · intro tag a inner b hT hA hI hB hcross
    exact ⟨hasTag_wellFormed tag a inner b hA,
      extractInner_wellFormed tag a inner b hA hI,
      stripTag_wellFormed tag a inner b hT hA hI hB hcross⟩
  · intro tag a c hA hC
    exact ⟨hasTag_unterminated tag a c hA,
      extractInner_unterminated tag a c hA hC,
      stripTag_unterminated tag a c hA hC⟩

/-- Claim C4, witness: the well-formed scan applied at
`tag = "thinking"`, `a = ""`, `inner = "step1"`, `b = "answer"` — the
reasoning is the trimmed inner text and the content keeps the inner
text with the tag markers removed. -/
theorem claim_C4_witness :
    hasTag ("" ++ ("<" ++ "thinking" ++ ">") ++ "step1" ++
      ("</" ++ "thinking" ++ ">") ++ "answer") "thinking" = true ∧
    extractInnerTag ("" ++ ("<" ++ "thinking" ++ ">") ++ "step1" ++
      ("</" ++ "thinking" ++ ">") ++ "answer") "thinking" = jsTrim "step1" ∧
    stripTag ("" ++ ("<" ++ "thinking" ++ ">") ++ "step1" ++
      ("</" ++ "thinking" ++ ">") ++ "answer") "thinking" =
      "" ++ "step1" ++ "answer" :=
  claim_C4_reasoning_extraction.2.1 "thinking" "" "step1" "answer"
    (by decide) (by decide) (by decide) (by decide) (by decide)

/-- Claim C5: tool failures are non-fatal and observed exactly once.
`executeTool` is a total function (no failure escapes it): an unknown
tool, an argument string the JSON oracle rejects, and a throwing
handler each produce the human-readable error string as the result
value; a success returns the handler's value; every one of the four
paths emits exactly one `onToolCall` notification; and the outcome is
what `handleToolCalls` wraps into a tool-role message appended to the
conversation. -/
theorem claim_C5_tool_failures (tools : List ToolDef)
    (parseJson : String → Except String JsValue)
    (toolName toolArguments : String) :
    (executeTool tools parseJson toolName toolArguments).2.length = 1
    ∧ (tools.find? (fun t => t.name = toolName) = none →
        executeTool tools parseJson toolName toolArguments =
          (.str ("Tool \"" ++ toolName ++ "\" not found"),
           [{ toolName := toolName, argumentsRaw := some toolArguments
              argumentsParsed := none, result := none
              error := some ("Tool \"" ++ toolName ++ "\" not found") }]))
    ∧ (∀ tool e, tools.find? (fun t => t.name = toolName) = some tool →
        parseJson toolArguments = .error e →
        executeTool tools parseJson toolName toolArguments =
          (.str ("Error executing tool \"" ++ toolName ++ "\": " ++ e),
           [{ toolName := toolName, argumentsRaw := some toolArguments
              argumentsParsed := none, result := none
              error := some ("Error executing tool \"" ++ toolName ++ "\": " ++ e) }]))
    ∧ (∀ tool v e, tools.find? (fun t => t.name = toolName) = some tool →
        parseJson toolArguments = .ok v → tool.execute v = .error e →
        executeTool tools parseJson toolName toolArguments =
          (.str ("Error executing tool \"" ++ toolName ++ "\": " ++ e),
           [{ toolName := toolName, argumentsRaw := some toolArguments
              argumentsParsed := none, result := none
              error := some ("Error executing tool \"" ++ toolName ++ "\": " ++ e) }]))
    ∧ (∀ tool v r, tools.find? (fun t => t.name = toolName) = some tool →
        parseJson toolArguments = .ok v → tool.execute v = .ok r →
        executeTool tools parseJson toolName toolArguments =
          (r, [{ toolName := toolName, argumentsRaw := none
                 argumentsParsed := some v, result := some r, error := none }]))
    ∧ (∀ tc result, mkToolMessage tc result =
        { role := "tool", content := .str result.toContentString
          tool_call_id := some tc.id, name := some tc.function.name
          tool_calls := none }) := by
  refine ⟨?_, ?_, ?_, ?_, ?_, ?_⟩
  · cases hfind : tools.find? (fun t => t.name = toolName) with
    | none => simp [executeTool, hfind]
    | some tool =>
      cases hparse : parseJson toolArguments with
      | error e => simp [executeTool, hfind, hparse]
      | ok v =>
        cases hexec : tool.execute v with
        | error e => simp [executeTool, hfind, hparse, hexec]
        | ok r => simp [executeTool, hfind, hparse, hexec]
  · intro hfind
    simp [executeTool, hfind]
  · intro tool e hfind hparse
    simp [executeTool, hfind, hparse]
  · intro tool v e hfind hparse hexec
    simp [executeTool, hfind, hparse, hexec]
  · intro tool v r hfind hparse hexec
    simp [executeTool, hfind, hparse, hexec]
  · intro tc result
    rfl

/-- Claim C5, witness: an unknown tool name on an empty tool set and a
successful call of a concrete echo tool — each with exactly one
observer notification. -/
theorem claim_C5_witness :
    executeTool [] (fun _ => .ok (.str "x")) "calc" "\x7b\x7d" =
      (.str "Tool \"calc\" not found",
       [{ toolName := "calc", argumentsRaw := some "\x7b\x7d"
          argumentsParsed := none, result := none
          error := some "Tool \"calc\" not found" }]) ∧
    executeTool [{ name := "echo", execute := fun v => .ok v }]
        (fun _ => .ok (.str "hi")) "echo" "\"hi\"" =
      (.str "hi", [{ toolName := "echo", argumentsRaw := none
                     argumentsParsed := some (.str "hi")
                     result := some (.str "hi"), error := none }]) :=
  ⟨(claim_C5_tool_failures [] (fun _ => .ok (.str "x")) "calc" "\x7b\x7d").2.1 rfl,
   (claim_C5_tool_failures [{ name := "echo", execute := fun v => .ok v }]
       (fun _ => .ok (.str "hi")) "echo" "\"hi\"").2.2.2.2.1
     { name := "echo", execute := fun v => .ok v } (.str "hi") (.str "hi")
     rfl rfl rfl⟩

theorem find?_pair_map (f : Nat → Message) :
    ∀ (l : List Nat) (i : Nat), i ∈ l →
    (l.map fun j => (j, f j)).find? (fun p => p.1 = i) = some (i, f i) := by
  intro l
  induction l with
  | nil => intro i hi; cases hi
  | cons j l' ih =>
    intro i hi
    by_cases hj : j = i
    · subst hj
      simp [List.find?]
    · have hi' : i ∈ l' := by
        rcases List.mem_cons.mp hi with rfl | h
        · exact absurd rfl hj
        · exact h
      simp [List.find?, hj, ih i hi']

theorem reduceOption_map_some (l : List Message) :
    (l.map some).reduceOption = l := by
  induction l with
  | nil => rfl
  | cons x l' ih => simp [List.reduceOption, ih]

theorem promiseAllOrdered_perm (f : Nat → Message) (n : Nat) (order : List Nat)
    (hperm : order.Perm (List.range n)) :
    promiseAllOrdered f n order = (List.range n).map (fun i => some (f i)) := by
  unfold promiseAllOrdered
  apply List.map_congr_left
  intro i hi
  have himem : i ∈ order := hperm.mem_iff.mpr hi
  rw [find?_pair_map f order i himem]
  rfl

theorem range_map_getD (results : List Message) :
    (List.range results.length).map
      (fun i => results.getD i dummyMessage) = results := by
  apply List.ext_get
  · simp
  · intro i h1 h2
    simp only [List.get_map, List.get_range]
    rw [List.getD_eq_get?, List.get?_eq_get h2]
    rfl

/-- Claim C6: for an assistant message carrying N tool calls, exactly
N tool-role messages are appended in call order — for every completion
schedule that is a permutation of the executions, the appended block
equals the call-order list of result messages; the i-th appended
message carries the tool_call_id and name of the i-th call and the
tool role. -/
theorem claim_C6_result_order (tools : List ToolDef)
    (parseJson : String → Except String JsValue) (msgs : List Message)
    (toolCalls : List ToolCall) (order : List Nat)
    (hperm : order.Perm (List.range toolCalls.length)) :
    handleToolCallsSched tools parseJson msgs toolCalls order =
      msgs ++ toolCalls.map (toolExecution tools parseJson)
    ∧ (handleToolCallsSched tools parseJson msgs toolCalls order).length =
      msgs.length + toolCalls.length
    ∧ (∀ i tc, toolCalls.get? i = some tc →
        (toolCalls.map (toolExecution tools parseJson)).get? i =
          some { role := "tool"
                 content := .str (executeTool tools parseJson
                   tc.function.name tc.function.arguments).1.toContentString
                 tool_call_id := some tc.id
                 name := some tc.function.name
                 tool_calls := none }) := by
  have hmain : handleToolCallsSched tools parseJson msgs toolCalls order =
      msgs ++ toolCalls.map (toolExecution tools parseJson) := by
    show msgs ++ (promiseAllOrdered
        (fun i => (toolCalls.map (toolExecution tools parseJson)).getD i dummyMessage)
        (toolCalls.map (toolExecution tools parseJson)).length order).reduceOption =
      msgs ++ toolCalls.map (toolExecution tools parseJson)
    have hlen : (toolCalls.map (toolExecution tools parseJson)).length =
        toolCalls.length := List.length_map _ _
    have hperm' : order.Perm
        (List.range (toolCalls.map (toolExecution tools parseJson)).length) := by
      rw [hlen]
      exact hperm
    rw [promiseAllOrdered_perm _ _ _ hperm']
    have : (List.range (toolCalls.map (toolExecution tools parseJson)).length).map
        (fun i => some ((toolCalls.map (toolExecution tools parseJson)).getD
          i dummyMessage)) =
        ((List.range (toolCalls.map (toolExecution tools parseJson)).length).map
          (fun i => (toolCalls.map (toolExecution tools parseJson)).getD
            i dummyMessage)).map some := by
      rw [List.map_map]
      rfl
    rw [this, reduceOption_map_some, range_map_getD]
  refine ⟨hmain, ?_, ?_⟩
  · rw [hmain]
    simp
  · intro i tc htc
    rw [List.get?_map, htc]
    rfl

/-- Claim C6, witness: two tool calls completing in reversed order are
still appended in call order with matching ids. -/
theorem claim_C6_witness :
    handleToolCallsSched [] (fun _ => .ok (.str "x")) []
        [ { id := "call1", type := "function"
            function := { name := "a", arguments := "" } }
        , { id := "call2", type := "function"
            function := { name := "b", arguments := "" } } ] [1, 0] =
      [ { role := "tool"
          content := .str "Tool \"a\" not found"
          tool_call_id := some "call1", name := some "a", tool_calls := none }
      , { role := "tool"
          content := .str "Tool \"b\" not found"
          tool_call_id := some "call2", name := some "b", tool_calls := none } ] := by
  have h := (claim_C6_result_order [] (fun _ => .ok (.str "x")) []
    [ { id := "call1", type := "function"
        function := { name := "a", arguments := "" } }
    , { id := "call2", type := "function"
        function := { name := "b", arguments := "" } } ] [1, 0]
    (by decide)).1
  rw [h]
  rfl

theorem auxInv_append (msgs l : List Message)
    (h1 : ∀ m ∈ msgs.drop 1, m.role ≠ "system")
    (h2 : ∀ m ∈ l, m.role ≠ "system") :
    ∀ m ∈ (msgs ++ l).drop 1, m.role ≠ "system" := by
  cases msgs with
  | nil =>
    intro m hm
    exact h2 m (List.mem_of_mem_drop hm)
  | cons a t =>
    intro m hm
    simp only [List.cons_append, List.drop_succ_cons, List.drop_zero] at hm
    rcases List.mem_append.mp hm with hm | hm
    · exact h1 m (by simpa using hm)
    · exact h2 m hm

theorem sysFilter_length_le (msgs : List Message)
    (h : ∀ m ∈ msgs.drop 1, m.role ≠ "system") :
    (msgs.filter (fun m => m.role = "system")).length ≤ 1 := by
  cases msgs with
  | nil => simp
  | cons a t =>
    have ht : t.filter (fun m => m.role = "system") = [] := by
      rw [List.filter_eq_nil]
      intro m hm
      simpa using h m (by simpa using hm)
    rw [List.filter_cons]
    split <;> simp [ht]

theorem takeRight_subset (arr : List α) (n : Int) :
    ∀ m ∈ takeRight arr n, m ∈ arr := by
  intro m hm
  unfold takeRight at hm
  split at hm
  · cases hm
  · split at hm
    · exact hm
    · exact List.mem_of_mem_drop hm

theorem applyConvOp_preserves (pt : String → String) (msgs : List Message)
    (op : ConvOp) (hInv : ∀ m ∈ msgs.drop 1, m.role ≠ "system")
    (hop : ∀ m, op = ConvOp.invokeAppendOp m → m.role ≠ "system") :
    ∀ m ∈ (applyConvOp pt msgs op).drop 1, m.role ≠ "system" := by
  cases op with
  | setSystemPromptOp prompt =>
    by_cases hp : prompt = ""
    · simpa [applyConvOp, hp] using hInv
    · simp only [applyConvOp, hp, if_false]
      by_cases hcond : pt prompt ≠ "" ∧ msgs.all (fun m => m.role ≠ "system")
      · rw [if_pos hcond]
        intro m hm
        have hall := List.all_eq_true.mp hcond.2
        simp only [List.drop_succ_cons, List.drop_zero] at hm
        simpa using hall m hm
      · rw [if_neg hcond]
        exact hInv
  | setUserMessageOp prompt bufferString =>
    refine auxInv_append msgs _ hInv ?_
    intro m hm
    rcases List.mem_singleton.mp hm with rfl
    split <;> simp
  | setAssistantMessageOp prompt =>
    refine auxInv_append msgs _ hInv ?_
    intro m hm
    rcases List.mem_singleton.mp hm with rfl
    simp
  | limitMessagesOp limit =>
    have hle := sysFilter_length_le msgs hInv
    have hother : ∀ m ∈ takeRight (msgs.filter (fun m => m.role ≠ "system")) limit,
        m.role ≠ "system" := by
      intro m hm
      have := takeRight_subset _ _ m hm
      simpa using (List.mem_filter.mp this).2
    show ∀ m ∈ (msgs.filter (fun m => m.role = "system") ++
      takeRight (msgs.filter (fun m => m.role ≠ "system")) limit).drop 1, _
    cases hfil : msgs.filter (fun m => m.role = "system") with
    | nil =>
      intro m hm
      simp only [List.nil_append] at hm
      exact hother m (List.mem_of_mem_drop hm)
    | cons s rest =>
      have : rest = [] := by
        rw [hfil] at hle
        simpa using List.length_eq_zero.mp (by simpa using hle)
      subst this
      intro m hm
      simp only [List.cons_append, List.drop_succ_cons, List.drop_zero,
        List.nil_append] at hm
      exact hother m hm
  | flushAllMessagesOp =>
    intro m hm
    simp [applyConvOp] at hm
  | invokeAppendOp mm =>
    refine auxInv_append msgs _ hInv ?_
    intro m hm
    rcases List.mem_singleton.mp hm with rfl
    exact hop m rfl
  | toolResultsAppendOp results =>
    refine auxInv_append msgs _ hInv ?_
    intro m hm
    rcases List.mem_map.mp hm with ⟨p, _, rfl⟩
    simp [mkToolMessage]

theorem convFold_preserves (pt : String → String) :
    ∀ (ops : List ConvOp) (msgs : List Message),
    (∀ m ∈ msgs.drop 1, m.role ≠ "system") →
    (∀ m, ConvOp.invokeAppendOp m ∈ ops → m.role ≠ "system") →
    ∀ m ∈ (ops.foldl (applyConvOp pt) msgs).drop 1, m.role ≠ "system" := by
  intro ops
  induction ops with
  | nil => intro msgs hInv _; exact hInv
  | cons op rest ih =>
    intro msgs hInv hops
    refine ih (applyConvOp pt msgs op) ?_ ?_
    · exact applyConvOp_preserves pt msgs op hInv
        (fun m hm => hops m (by rw [← hm]; exact List.mem_cons_self _ _))
    · exact fun m hm => hops m (List.mem_cons_of_mem _ hm)

theorem sysInv_of_aux (msgs : List Message)
    (h : ∀ m ∈ msgs.drop 1, m.role ≠ "system") : sysInv msgs := by
  constructor
  · exact sysFilter_length_le msgs h
  · intro m hm hrole
    cases msgs with
    | nil => cases hm
    | cons a t =>
      rcases List.mem_cons.mp hm with rfl | hm'
      · rfl
      · exact absurd hrole (h m (by simpa using hm'))

/-- Claim C7, counterexample.  The appends performed by invoke /
processStream push the vendor-returned message as-is; a response whose
message carries `role: "system"` (nothing in the code filters the
role) produces a log with two system messages, the second not first. -/
theorem claim_C7_counterexample :
    sysCount (runConv id "sys"
      [ConvOp.invokeAppendOp { role := "system", content := .str "x" }]) = 2 ∧
    ¬ sysInv (runConv id "sys"
      [ConvOp.invokeAppendOp { role := "system", content := .str "x" }]) := by
  decide

/-- Claim C7, amended.  For every sequence of public operations
(construction with a system prompt, setSystemPrompt, setUserMessage,
setAssistantMessage, limitMessages, flushAllMessages, and the
invoke/stream appends) in which the vendor messages pushed by the
invoke/stream appends do not themselves carry the system role, the
message log contains at most one system-role message, and it is the
first entry when present. -/
theorem claim_C7_system_invariant (pt : String → String)
    (systemPrompt : String) (ops : List ConvOp)
    (hroles : ∀ m, ConvOp.invokeAppendOp m ∈ ops → m.role ≠ "system") :
    sysInv (runConv pt systemPrompt ops) := by
  apply sysInv_of_aux
  apply convFold_preserves pt ops _ _ hroles
  unfold constructMessages
  apply applyConvOp_preserves pt []
  · intro m hm
    simp at hm
  · intro m hm
    cases hm

/-- Claim C7, witness: a representative operation sequence — user and
assistant turns, a vendor assistant-message append, a tool-result
append, and a limit — keeps a single leading system message. -/
theorem claim_C7_witness :
    sysInv (runConv id "sys"
      [ ConvOp.setUserMessageOp "hi" none
      , ConvOp.invokeAppendOp { role := "assistant", content := .str "yo" }
      , ConvOp.toolResultsAppendOp []
      , ConvOp.limitMessagesOp 1 ]) :=
  claim_C7_system_invariant id "sys"
    [ ConvOp.setUserMessageOp "hi" none
    , ConvOp.invokeAppendOp { role := "assistant", content := .str "yo" }
    , ConvOp.toolResultsAppendOp []
    , ConvOp.limitMessagesOp 1 ]
    (by
      intro m hm
      simp only [List.mem_cons, List.not_mem_nil, or_false] at hm
      rcases hm with h | h | h | h <;> simp_all)

/-- Claim C8: request shaping by reasoning dialect.  With reasoning
enabled on a reasoning model (and no raw override), the built body
carries exactly one dialect block, selected by the capability flags in
source order: openai-style writes `reasoning_effort` and moves a
requested non-zero token limit from `max_tokens` to
`max_completion_tokens`; thinking-budget-style writes only
`extra_body.google.thinking_config` with `include_thoughts = true` and
the budget mapped minimal→2048, low→4096, medium→8192, high→16384
(shown on a detected `gemini-2.5-flash` session); enabled-flag-style
writes only `thinking = {type: "enabled"}`; reasoning models matching
no listed dialect get no reasoning block at all. -/
theorem claim_C8_request_shaping (c : MicroConfig) (enableStream : Bool)
    (hr : c.reasoning = true) (hm : c.capabilities.isReasoningModel = true)
    (ho : c.override = none) :
    (c.capabilities.isOpenAIReasoning = true →
      (buildRequestBody c enableStream).reasoning_effort = c.reasoning_effort ∧
      (buildRequestBody c enableStream).extra_body = none ∧
      (buildRequestBody c enableStream).thinking = none ∧
      (∀ n, c.maxTokens = some n → n ≠ 0 →
        (buildRequestBody c enableStream).max_completion_tokens = some n ∧
        (buildRequestBody c enableStream).max_tokens = none))
    ∧ (c.capabilities.isOpenAIReasoning = false →
        c.capabilities.isGemini25Reasoning = true →
      (buildRequestBody c enableStream).extra_body =
        some { thinking_config :=
          { thinking_budget := thinkingBudgetMap (c.reasoning_effort.getD .medium)
            include_thoughts := true } } ∧
      (buildRequestBody c enableStream).reasoning_effort = none ∧
      (buildRequestBody c enableStream).thinking = none)
    ∧ (c.capabilities.isOpenAIReasoning = false →
        c.capabilities.isGemini25Reasoning = false →
        c.capabilities.isGLMReasoning = true →
      (buildRequestBody c enableStream).thinking = some { type := "enabled" } ∧
      (buildRequestBody c enableStream).reasoning_effort = none ∧
      (buildRequestBody c enableStream).extra_body = none)
    ∧ (c.capabilities.isOpenAIReasoning = false →
        c.capabilities.isGemini25Reasoning = false →
        c.capabilities.isGLMReasoning = false →
      (buildRequestBody c enableStream).reasoning_effort = none ∧
      (buildRequestBody c enableStream).extra_body = none ∧
      (buildRequestBody c enableStream).thinking = none)
    ∧ ((buildRequestBody (geminiDemoConfig .minimal) false).extra_body =
        some { thinking_config :=
          { thinking_budget := 2048, include_thoughts := true } } ∧
       (buildRequestBody (geminiDemoConfig .low) false).extra_body =
        some { thinking_config :=
          { thinking_budget := 4096, include_thoughts := true } } ∧
       (buildRequestBody (geminiDemoConfig .medium) false).extra_body =
        some { thinking_config :=
          { thinking_budget := 8192, include_thoughts := true } } ∧
       (buildRequestBody (geminiDemoConfig .high) false).extra_body =
        some { thinking_config :=
          { thinking_budget := 16384, include_thoughts := true } }) := by
  have hbody : buildRequestBody c enableStream =
      applyReasoningConfig c.capabilities c.reasoning_effort c.maxTokens
        (let b0 : RequestBody :=
          { model := c.model, messages := c.messages
            stream := enableStream || c.streamEnabled }
        let b1 := if c.temperature.isSome then
          { b0 with temperature := c.temperature } else b0
        let b2 := if jsTruthyNat c.maxTokens then
          { b1 with max_tokens := c.maxTokens } else b1
        if jsTruthyNat (c.tools.map List.length) then
          let b := { b2 with tools := c.tools }
          if jsTruthy c.tool_choice then { b with tool_choice := c.tool_choice }
          else b
        else b2) := by
    unfold buildRequestBody
    rw [ho]
    simp only [hr, hm, Bool.and_self, if_true]
  have hex : ∃ base : RequestBody,
      buildRequestBody c enableStream =
        applyReasoningConfig c.capabilities c.reasoning_effort c.maxTokens base ∧
      base.reasoning_effort = none ∧ base.extra_body = none ∧
      base.thinking = none ∧ base.max_completion_tokens = none ∧
      base.max_tokens = (if jsTruthyNat c.maxTokens then c.maxTokens else none) :=
    ⟨_, hbody,
      by by_cases hmt : jsTruthyNat c.maxTokens <;>
          by_cases ht : c.temperature.isSome <;>
          by_cases htools : jsTruthyNat (c.tools.map List.length) <;>
          by_cases htc : jsTruthy c.tool_choice <;>
          simp [hmt, ht, htools, htc],
      by by_cases hmt : jsTruthyNat c.maxTokens <;>
          by_cases ht : c.temperature.isSome <;>
          by_cases htools : jsTruthyNat (c.tools.map List.length) <;>
          by_cases htc : jsTruthy c.tool_choice <;>
          simp [hmt, ht, htools, htc],
      by by_cases hmt : jsTruthyNat c.maxTokens <;>
          by_cases ht : c.temperature.isSome <;>
          by_cases htools : jsTruthyNat (c.tools.map List.length) <;>
          by_cases htc : jsTruthy c.tool_choice <;>
          simp [hmt, ht, htools, htc],
      by by_cases hmt : jsTruthyNat c.maxTokens <;>
          by_cases ht : c.temperature.isSome <;>
          by_cases htools : jsTruthyNat (c.tools.map List.length) <;>
          by_cases htc : jsTruthy c.tool_choice <;>
          simp [hmt, ht, htools, htc],
      by by_cases hmt : jsTruthyNat c.maxTokens <;>
          by_cases ht : c.temperature.isSome <;>
          by_cases htools : jsTruthyNat (c.tools.map List.length) <;>
          by_cases htc : jsTruthy c.tool_choice <;>
          simp [hmt, ht, htools, htc]⟩
  obtain ⟨base, hB, hre, heb, hth, hmc, hmx⟩ := hex
  refine ⟨?_, ?_, ?_, ?_, by decide⟩
  · intro hopenai
    rw [hB]
    unfold applyReasoningConfig
    rw [hopenai]
    simp only [if_true]
    by_cases hmt : jsTruthyNat c.maxTokens
    · simp only [hmt, if_true]
      refine ⟨by simp, by simp [heb], by simp [hth], ?_⟩
      intro n hn hne
      exact ⟨by simp [hn], by simp⟩
    · simp only [hmt, Bool.false_eq_true, if_false]
      refine ⟨by simp, by simp [heb], by simp [hth], ?_⟩
      intro n hn hne
      rw [hn] at hmt
      simp [jsTruthyNat, hne] at hmt
  · intro hopenai hgem
    rw [hB]
    unfold applyReasoningConfig
    rw [hopenai, hgem]
    simp only [Bool.false_eq_true, if_false, if_true]
    exact ⟨by simp, by simp [hre], by simp [hth]⟩
  · intro hopenai hgem hglm
    rw [hB]
    unfold applyReasoningConfig
    rw [hopenai, hgem, hglm]
    simp only [Bool.false_eq_true, if_false, if_true]
    exact ⟨by simp, by simp [hre], by simp [heb]⟩
  · intro hopenai hgem hglm
    rw [hB]
    unfold applyReasoningConfig
    rw [hopenai, hgem, hglm]
    simp only [Bool.false_eq_true, if_false]
    exact ⟨hre, heb, hth⟩

/-- Claim C8, witness: an o3 session with a 500-token limit gets
`reasoning_effort = high` with the limit moved to
`max_completion_tokens`, and the gemini-2.5 medium session gets the
8192 budget block. -/
theorem claim_C8_witness :
    (buildRequestBody
      { model := "o3-mini", messages := [], streamEnabled := false
        maxTokens := some 500, reasoning := true
        capabilities := detectModelCapabilities "o3-mini"
        reasoning_effort := some .high } false).reasoning_effort = some .high ∧
    (buildRequestBody
      { model := "o3-mini", messages := [], streamEnabled := false
        maxTokens := some 500, reasoning := true
        capabilities := detectModelCapabilities "o3-mini"
        reasoning_effort := some .high } false).max_completion_tokens = some 500 ∧
    (buildRequestBody
      { model := "o3-mini", messages := [], streamEnabled := false
        maxTokens := some 500, reasoning := true
        capabilities := detectModelCapabilities "o3-mini"
        reasoning_effort := some .high } false).max_tokens = none ∧
    (buildRequestBody (geminiDemoConfig .medium) false).extra_body =
      some { thinking_config :=
        { thinking_budget := 8192, include_thoughts := true } } := by
  have h := claim_C8_request_shaping
    { model := "o3-mini", messages := [], streamEnabled := false
      maxTokens := some 500, reasoning := true
      capabilities := detectModelCapabilities "o3-mini"
      reasoning_effort := some .high } false rfl (by decide) rfl
  exact ⟨(h.1 (by decide)).1,
    ((h.1 (by decide)).2.2.2 500 rfl (by decide)).1,
    ((h.1 (by decide)).2.2.2 500 rfl (by decide)).2,
    h.2.2.2.2.2.2.1⟩

theorem find?_of_nodup (l : List PendingEntry) (e : PendingEntry)
    (hnd : (l.map (·.id)).Nodup) (hmem : e ∈ l) :
    l.find? (fun p => p.id = e.id) = some e := by
  induction l with
  | nil => cases hmem
  | cons h t ih =>
    by_cases hh : h.id = e.id
    · have he : h = e := by
        rcases List.mem_cons.mp hmem with rfl | hmem'
        · rfl
        · exfalso
          have : e.id ∈ t.map (·.id) := List.mem_map.mpr ⟨e, hmem', rfl⟩
          rw [← hh] at this
          exact (List.nodup_cons.mp hnd).1 this
      subst he
      simp [List.find?, hh]
    · have hmem' : e ∈ t := by
        rcases List.mem_cons.mp hmem with rfl | hmem'
        · exact absurd rfl hh
        · exact hmem'
      rw [List.find?_cons_of_neg _ (by simpa using hh)]
      exact ih (List.nodup_cons.mp hnd).2 hmem'

theorem mcpStep_inv (st : MCPState) (evt : MCPEvent)
    (hnd : (st.pending.map (·.id)).Nodup)
    (hle : ∀ p ∈ st.pending, p.id ≤ st.messageId) :
    ((mcpStep st evt).1.pending.map (·.id)).Nodup ∧
    (∀ p ∈ (mcpStep st evt).1.pending, p.id ≤ (mcpStep st evt).1.messageId) ∧
    st.messageId ≤ (mcpStep st evt).1.messageId := by
  have hsub : ∀ (f : PendingEntry → Bool),
      ((st.pending.filter f).map (·.id)).Nodup ∧
      (∀ p ∈ st.pending.filter f, p.id ≤ st.messageId) := by
    intro f
    constructor
    · exact List.Nodup.sublist ((List.filter_sublist st.pending).map _) hnd
    · intro p hp
      exact hle p (List.mem_of_mem_filter hp)
  cases evt with
  | send method writeOk =>
    have hfresh : st.messageId + 1 ∉ st.pending.map (·.id) := by
      intro hmem
      rcases List.mem_map.mp hmem with ⟨p, hp, hid⟩
      have := hle p hp
      omega
    have hnd' : ((st.pending ++
        ([{ id := st.messageId + 1, method := method }] : List PendingEntry)).map
          (·.id)).Nodup := by
      rw [List.map_append]
      rw [List.nodup_append]
      refine ⟨hnd, by simp, ?_⟩
      intro x hx
      simp only [List.map_cons, List.map_nil, List.mem_singleton]
      intro hx'
      subst hx'
      exact hfresh hx
    have hle' : ∀ p ∈ st.pending ++
        ([{ id := st.messageId + 1, method := method }] : List PendingEntry),
        p.id ≤ st.messageId + 1 := by
      intro p hp
      rcases List.mem_append.mp hp with hp | hp
      · have := hle p hp
        omega
      · rcases List.mem_singleton.mp hp with rfl
        rfl
    cases writeOk with
    | true =>
      exact ⟨hnd', fun p hp => hle' p hp, by simp [mcpStep]⟩
    | false =>
      refine ⟨?_, ?_, by simp [mcpStep]⟩
      · exact List.Nodup.sublist ((List.filter_sublist _).map _) hnd'
      · intro p hp
        exact hle' p (List.mem_of_mem_filter hp)
  | recv id isError errMessage result =>
    cases id with
    | none => exact ⟨hnd, hle, Nat.le_refl _⟩
    | some mid =>
      cases hfind : st.pending.find? (fun p => p.id = mid) with
      | none => simp only [mcpStep, hfind]; exact ⟨hnd, hle, Nat.le_refl _⟩
      | some e =>
        simp only [mcpStep, hfind]
        exact ⟨(hsub _).1, (hsub _).2, Nat.le_refl _⟩
  | timeoutFire tid =>
    cases hfind : st.pending.find? (fun p => p.id = tid) with
    | none => simp only [mcpStep, hfind]; exact ⟨hnd, hle, Nat.le_refl _⟩
    | some e =>
      simp only [mcpStep, hfind]
      exact ⟨(hsub _).1, (hsub _).2, Nat.le_refl _⟩
  | cleanup => exact ⟨by simp [mcpStep], by simp [mcpStep], Nat.le_refl _⟩

theorem mcpRun_inv : ∀ (evts : List MCPEvent) (st : MCPState),
    (st.pending.map (·.id)).Nodup →
    (∀ p ∈ st.pending, p.id ≤ st.messageId) →
    (((mcpRun st evts).1.pending.map (·.id)).Nodup ∧
     ∀ p ∈ (mcpRun st evts).1.pending, p.id ≤ (mcpRun st evts).1.messageId) := by
  intro evts
  induction evts with
  | nil => intro st h1 h2; exact ⟨h1, h2⟩
  | cons e rest ih =>
    intro st h1 h2
    obtain ⟨h1', h2', _⟩ := mcpStep_inv st e h1 h2
    have := ih (mcpStep st e).1 h1' h2'
    simpa [mcpRun] using this

theorem mcpAllocs_spec : ∀ (evts : List MCPEvent) (st : MCPState),
    mcpAllocs st evts = List.range' (st.messageId + 1) (sendCount evts) := by
  intro evts
  induction evts with
  | nil => intro st; rfl
  | cons e rest ih =>
    intro st
    cases e with
    | send method writeOk =>
      have hmid : ((mcpStep st (.send method writeOk)).1).messageId =
          st.messageId + 1 := by
        cases writeOk <;> rfl
      simp only [mcpAllocs, sendCount, ih, hmid, List.range'_succ]
    | recv id isError errMessage result =>
      have hmid : ((mcpStep st (.recv id isError errMessage result)).1).messageId =
          st.messageId := by
        cases id with
        | none => rfl
        | some mid =>
          cases hfind : st.pending.find? (fun p => p.id = mid) with
          | none => simp [mcpStep, hfind]
          | some e => simp [mcpStep, hfind]
      simp only [mcpAllocs, sendCount, ih, hmid]
    | timeoutFire tid =>
      have hmid : ((mcpStep st (.timeoutFire tid)).1).messageId = st.messageId := by
        cases hfind : st.pending.find? (fun p => p.id = tid) with
        | none => simp [mcpStep, hfind]
        | some e => simp [mcpStep, hfind]
      simp only [mcpAllocs, sendCount, ih, hmid]
    | cleanup =>
      simp only [mcpAllocs, sendCount, ih]
      rfl

/-- Claim C9: MCP request correlation and timeout isolation.
(1) The per-request deadline constant is 30000 ms.  (2) Along any
event trace from a fresh client the allocated request ids are exactly
1, 2, 3, … (strictly increasing, never reused — `cleanup` clears the
pending map but not the counter).  (3) The pending map reached by any
trace has at most one entry per id.  (4) Two pending requests with
distinct ids are each resolved with the payload of the inbound
response carrying their own id, even when the responses arrive in the
opposite order.  (5) A timeout firing for one pending id rejects
exactly that request with the timeout error and removes only it: every
other pending entry survives. -/
theorem claim_C9_mcp_correlation (evts : List MCPEvent) :
    MCP_REQUEST_TIMEOUT_MS = 30000
    ∧ mcpAllocs mcpInit evts = List.range' 1 (sendCount evts)
    ∧ (((mcpRun mcpInit evts).1.pending.map (·.id)).Nodup)
    ∧ (∀ a b ma mb ra rb,
        (⟨a, ma⟩ : PendingEntry) ∈ (mcpRun mcpInit evts).1.pending →
        (⟨b, mb⟩ : PendingEntry) ∈ (mcpRun mcpInit evts).1.pending →
        a ≠ b →
        (mcpRun (mcpRun mcpInit evts).1
          [.recv (some b) false none rb, .recv (some a) false none ra]).2 =
          [(b, .resolved rb), (a, .resolved ra)])
    ∧ (∀ a b ma mb,
        (⟨a, ma⟩ : PendingEntry) ∈ (mcpRun mcpInit evts).1.pending →
        (⟨b, mb⟩ : PendingEntry) ∈ (mcpRun mcpInit evts).1.pending →
        a ≠ b →
        (mcpStep (mcpRun mcpInit evts).1 (.timeoutFire a)).2 =
          [(a, .rejectedTimeout ma)] ∧
        (⟨b, mb⟩ : PendingEntry) ∈
          (mcpStep (mcpRun mcpInit evts).1 (.timeoutFire a)).1.pending ∧
        (∀ p ∈ (mcpStep (mcpRun mcpInit evts).1 (.timeoutFire a)).1.pending,
          p.id ≠ a)) := by
  obtain ⟨hnd, _⟩ := mcpRun_inv evts mcpInit (by simp [mcpInit]) (by simp [mcpInit])
  set st := (mcpRun mcpInit evts).1 with hst
  refine ⟨rfl, mcpAllocs_spec evts mcpInit, hnd, ?_, ?_⟩
  · intro a b ma mb ra rb hma hmb hab
    have hfb : st.pending.find? (fun p => p.id = b) = some ⟨b, mb⟩ :=
      find?_of_nodup st.pending ⟨b, mb⟩ hnd hmb
    have hma' : (⟨a, ma⟩ : PendingEntry) ∈
        st.pending.filter (fun p => p.id ≠ b) := by
      rw [List.mem_filter]
      exact ⟨hma, by simpa using hab⟩
    have hnd' : ((st.pending.filter (fun p => p.id ≠ b)).map (·.id)).Nodup :=
      List.Nodup.sublist ((List.filter_sublist st.pending).map _) hnd
    have hfa : (st.pending.filter (fun p => p.id ≠ b)).find?
        (fun p => p.id = a) = some ⟨a, ma⟩ :=
      find?_of_nodup _ ⟨a, ma⟩ hnd' hma'
    have h1 : mcpStep st (.recv (some b) false none rb) =
        ({ st with pending := st.pending.filter (fun p => p.id ≠ b) },
         [(b, .resolved rb)]) := by
      simp [mcpStep, hfb]
    have h2 : mcpStep { st with pending := st.pending.filter (fun p => p.id ≠ b) }
        (.recv (some a) false none ra) =
        ({ st with pending := List.filter (fun p => p.id ≠ a) (List.filter (fun p => p.id ≠ b) st.pending) }, [(a, .resolved ra)]) := by
      simp only [mcpStep]
      rw [hfa]
      simp
    simp only [mcpRun]
    rw [h1]
    simp only []
    rw [h2]
    rfl
  · intro a b ma mb hma hmb hab
    have hfa : st.pending.find? (fun p => p.id = a) = some ⟨a, ma⟩ :=
      find?_of_nodup st.pending ⟨a, ma⟩ hnd hma
    refine ⟨by simp [mcpStep, hfa], ?_, ?_⟩
    · simp only [mcpStep, hfa]
      rw [List.mem_filter]
      exact ⟨hmb, by simpa using fun h => hab h.symm⟩
    · intro p hp
      simp only [mcpStep, hfa] at hp
      have := (List.mem_filter.mp hp).2
      simpa using this

/-- Claim C9, witness: two sends allocate ids 1 and 2; responses
arriving as 2 then 1 resolve each with its own payload; a timeout
firing for id 1 rejects only it and leaves id 2 pending. -/
theorem claim_C9_witness :
    (mcpRun (mcpRun mcpInit
        [.send "tools/list" true, .send "tools/call" true]).1
      [.recv (some 2) false none "r2", .recv (some 1) false none "r1"]).2 =
      [(2, .resolved "r2"), (1, .resolved "r1")] ∧
    (mcpStep (mcpRun mcpInit
        [.send "tools/list" true, .send "tools/call" true]).1
      (.timeoutFire 1)).2 = [(1, .rejectedTimeout "tools/list")] ∧
    (⟨2, "tools/call"⟩ : PendingEntry) ∈
      (mcpStep (mcpRun mcpInit
        [.send "tools/list" true, .send "tools/call" true]).1
      (.timeoutFire 1)).1.pending := by
  have h := claim_C9_mcp_correlation [.send "tools/list" true, .send "tools/call" true]
  refine ⟨h.2.2.2.1 1 2 "tools/list" "tools/call" "r1" "r2"
      (by decide) (by decide) (by decide), ?_, ?_⟩
  · exact (h.2.2.2.2 1 2 "tools/list" "tools/call" (by decide) (by decide) (by decide)).1
  · exact (h.2.2.2.2 1 2 "tools/list" "tools/call" (by decide) (by decide) (by decide)).2.1

theorem runDecoder_readError :
    ∀ (pre : List StreamItem), (∀ it ∈ pre, isReadError it = false) →
    ∀ (st : DecoderState) (e : HttpFailure) (rest : List StreamItem),
    ∃ evs, runDecoder st (pre ++ .readError e :: rest) = (evs, Sum.inr e) := by
  intro pre
  induction pre with
  | nil => intro _ st e rest; exact ⟨[], rfl⟩
  | cons it pre' ih =>
    intro hpure st e rest
    have hrest : ∀ x ∈ pre', isReadError x = false :=
      fun x hx => hpure x (List.mem_cons_of_mem _ hx)
    cases it with
    | frame f =>
      obtain ⟨evs, heq⟩ := ih hrest (decodeFrame st f).1 e rest
      refine ⟨(decodeFrame st f).2.toList ++ evs, ?_⟩
      simp [runDecoder, heq]
    | malformed =>
      obtain ⟨evs, heq⟩ := ih hrest st e rest
      exact ⟨evs, by simpa [runDecoder] using heq⟩
    | noise =>
      obtain ⟨evs, heq⟩ := ih hrest st e rest
      exact ⟨evs, by simpa [runDecoder] using heq⟩
    | readError e' =>
      have := hpure _ (List.mem_cons_self _ _)
      simp [isReadError] at this

/-- Claim C10: error atomicity of a failed round.  (1) When the
transport outcome of a non-streaming round is a failure, `invoke`
rejects with the classified payload and the conversation log is
exactly what it was when the round started.  (2) The transport
classifies an abort as a `timeout` error (`ECONNABORTED`, message
`Request timeout`) and a non-2xx response as an `api_error` carrying
the status; network failures keep their own code.  (3) When the stream
read of a streaming round fails after any prefix of clean items, the
generator throws the classified error, yields no terminal event, and
appends nothing to the conversation log. -/
theorem claim_C10_error_atomicity :
    (∀ (tools : List ToolDef) (parseJson : String → Except String JsValue)
       (msgs : List Message) (e : HttpFailure),
      invokeRound tools parseJson msgs (.error e) =
        (.failedRound (classifyError e), msgs))
    ∧ (∀ e, requestResult .abort = .error e →
        (classifyError e).type = "timeout" ∧
        (classifyError e).message = "Request timeout" ∧
        (classifyError e).code = some "ECONNABORTED")
    ∧ (∀ status errMessage data e,
        requestResult (.httpFailure status errMessage data) = .error e →
        (classifyError e).type = "api_error" ∧
        (classifyError e).status = some status ∧
        (classifyError e).code = some "HTTP_ERROR")
    ∧ (∀ (msgs : List Message) (pre : List StreamItem) (e : HttpFailure)
         (rest : List StreamItem),
        (∀ it ∈ pre, isReadError it = false) →
        (processStream msgs (pre ++ .readError e :: rest)).messages = msgs ∧
        (processStream msgs (pre ++ .readError e :: rest)).thrown =
          some (classifyError e) ∧
        (processStream msgs (pre ++ .readError e :: rest)).final = none) := by
  refine ⟨fun _ _ _ _ => rfl, ?_, ?_, ?_⟩
  · intro e he
    cases he
    exact ⟨rfl, rfl, rfl⟩
  · intro status errMessage data e he
    cases he
    exact ⟨rfl, rfl, rfl⟩
  · intro msgs pre e rest hpure
    obtain ⟨evs, heq⟩ := runDecoder_readError pre hpure initDecoderState e rest
    refine ⟨?_, ?_, ?_⟩ <;> simp [processStream, heq]

/-- Claim C10, witness: a timed-out transport round leaves a two-entry
log untouched and rejects with the timeout classification; a stream
whose second read fails after one content frame appends nothing and
throws the classified error. -/
theorem claim_C10_witness :
    invokeRound [] (fun _ => .ok (.str "x"))
        [{ role := "user", content := .str "hi" }]
        (.error { message := "Request timeout", code := some "ECONNABORTED" }) =
      (.failedRound { type := "timeout", message := "Request timeout"
                      status := none, code := some "ECONNABORTED", details := none },
       [{ role := "user", content := .str "hi" }]) ∧
    (processStream [{ role := "user", content := .str "hi" }]
        ([.frame { delta := some { content := some "He" } }] ++
          .readError { message := "boom" } :: [])).messages =
      [{ role := "user", content := .str "hi" }] ∧
    (processStream [{ role := "user", content := .str "hi" }]
        ([.frame { delta := some { content := some "He" } }] ++
          .readError { message := "boom" } :: [])).thrown =
      some (classifyError { message := "boom" }) := by
  refine ⟨?_, ?_, ?_⟩
  · exact claim_C10_error_atomicity.1 [] (fun _ => .ok (.str "x"))
      [{ role := "user", content := .str "hi" }]
      { message := "Request timeout", code := some "ECONNABORTED" }
  · exact (claim_C10_error_atomicity.2.2.2
      [{ role := "user", content := .str "hi" }]
      [.frame { delta := some { content := some "He" } }]
      { message := "boom" } [] (by decide)).1
  · exact (claim_C10_error_atomicity.2.2.2
      [{ role := "user", content := .str "hi" }]
      [.frame { delta := some { content := some "He" } }]
      { message := "boom" } [] (by decide)).2.1
